import Mathlib

/-!
Verification of the Wayfile tag / attribute-schema subsystem.

The definitions below are a shallow embedding of the Go services in
`internal/services` (tag service and document service), of the sqlc queries in
`internal/db/queries`, and of the SQL schema and triggers of the initial
migration.  Machine integers are modelled as `Nat` with explicit `% 2^32`
where overflow matters; fallible operations return `Except`; the PostgreSQL
tables are modelled as lists of records inside an explicit `DB` state.
-/

namespace Wayfile

/-! ## Small string helpers (counterparts of Go `strings` functions) -/

/-- Character-level test that `p` is an initial run of `s`
(counterpart of Go `strings.HasPrefix(s, p)` on the byte/char list). -/
def strStartsWithChars : List Char → List Char → Bool
  | [], _ => true
  | _ :: _, [] => false
  | c :: cs, d :: ds => c == d && strStartsWithChars cs ds

/-- Counterpart of Go `strings.HasPrefix(s, p)`. -/
def strStartsWith (s p : String) : Bool :=
  strStartsWithChars p.data s.data

/-- Counterpart of Go `strings.TrimSuffix(s, "/")`: removes one trailing
slash if present. -/
def trimSuffixSlash (s : String) : String :=
  match s.data.reverse with
  | '/' :: rest => ⟨rest.reverse⟩
  | _ => s

/-! ## SHA-256 (used by `generateColorFromName` in the tag service)

A direct embedding of FIPS 180-4 SHA-256 over byte lists, with 32-bit words
represented as `Nat` reduced mod `2^32`. -/

/-- 2^32, the modulus for 32-bit words. -/
def M32 : Nat := 4294967296

/-- Rotate a 32-bit word right by `n` bits. -/
def rotr32 (n x : Nat) : Nat :=
  ((x >>> n) ||| (x <<< (32 - n))) % M32

/-- Bitwise complement within 32 bits. -/
def not32 (x : Nat) : Nat := x ^^^ 0xFFFFFFFF

/-- The SHA-256 round constants (FIPS 180-4, in decimal). -/
def k256 : List Nat :=
  [1116352408, 1899447441, 3049323471, 3921009573, 961987163,
   1508970993, 2453635748, 2870763221, 3624381080, 310598401,
   607225278, 1426881987, 1925078388, 2162078206, 2614888103,
   3248222580, 3835390401, 4022224774, 264347078, 604807628,
   770255983, 1249150122, 1555081692, 1996064986, 2554220882,
   2821834349, 2952996808, 3210313671, 3336571891, 3584528711,
   113926993, 338241895, 666307205, 773529912, 1294757372,
   1396182291, 1695183700, 1986661051, 2177026350, 2456956037,
   2730485921, 2820302411, 3259730800, 3345764771, 3516065817,
   3600352804, 4094571909, 275423344, 430227734, 506948616,
   659060556, 883997877, 958139571, 1322822218, 1537002063,
   1747873779, 1955562222, 2024104815, 2227730452, 2361852424,
   2428436474, 2756734187, 3204031479, 3329325298]

/-- The SHA-256 initial hash value (in decimal). -/
def sha256InitH : List Nat :=
  [1779033703, 3144134277, 1013904242, 2773480762,
   1359893119, 2600822924, 528734635, 1541459225]

/-- Split a list into successive `n`-byte chunks; `fuel` bounds the number of
chunks (structural recursion so that the kernel can evaluate it). -/
def chunksAux (n : Nat) : Nat → List Nat → List (List Nat)
  | _, [] => []
  | 0, _ => []
  | fuel + 1, l => l.take n :: chunksAux n fuel (l.drop n)

/-- Split a byte list into successive 64-byte blocks. -/
def chunks64 (l : List Nat) : List (List Nat) :=
  chunksAux 64 l.length l

/-- Assemble a big-endian 32-bit word from a list of bytes. -/
def beWord (bs : List Nat) : Nat :=
  bs.foldl (fun a b => a * 256 + b) 0

/-- Split a 64-byte block into sixteen big-endian 4-byte groups. -/
def blockWords (l : List Nat) : List (List Nat) :=
  chunksAux 4 l.length l

/-- One extension step of the SHA-256 message schedule: appends word
`w[i] = w[i-16] + σ₀(w[i-15]) + w[i-7] + σ₁(w[i-2])` for `i = w.length`. -/
def scheduleStep (w : List Nat) : List Nat :=
  let n := w.length
  let x15 := w.getD (n - 15) 0
  let x2 := w.getD (n - 2) 0
  let s0 := (rotr32 7 x15) ^^^ (rotr32 18 x15) ^^^ (x15 >>> 3)
  let s1 := (rotr32 17 x2) ^^^ (rotr32 19 x2) ^^^ (x2 >>> 10)
  w ++ [(w.getD (n - 16) 0 + s0 + w.getD (n - 7) 0 + s1) % M32]

/-- SHA-256 compression of one 64-byte block into the running hash state. -/
def sha256Compress (hst : List Nat) (block : List Nat) : List Nat :=
  let w16 := (blockWords block).map beWord
  let w := (List.range 48).foldl (fun acc _ => scheduleStep acc) w16
  let final := (List.range 64).foldl
    (fun st i =>
      match st with
      | [a, b, c, d, e, f, g, hh] =>
        let s1 := (rotr32 6 e) ^^^ (rotr32 11 e) ^^^ (rotr32 25 e)
        let ch := (e &&& f) ^^^ ((not32 e) &&& g)
        let temp1 := (hh + s1 + ch + k256.getD i 0 + w.getD i 0) % M32
        let s0 := (rotr32 2 a) ^^^ (rotr32 13 a) ^^^ (rotr32 22 a)
        let maj := (a &&& b) ^^^ (a &&& c) ^^^ (b &&& c)
        let temp2 := (s0 + maj) % M32
        [(temp1 + temp2) % M32, a, b, c, (d + temp1) % M32, e, f, g]
      | other => other)
    hst
  (hst.zip final).map (fun p => (p.1 + p.2) % M32)

/-- SHA-256 padding: append `0x80`, zeros and the 64-bit big-endian bit
length, up to a multiple of 64 bytes. -/
def sha256Pad (msg : List Nat) : List Nat :=
  let len := msg.length
  let bitLen := len * 8
  let k := (119 - len % 64) % 64
  let lenBytes := (List.range 8).map (fun i => (bitLen >>> ((7 - i) * 8)) % 256)
  msg ++ [0x80] ++ List.replicate k 0 ++ lenBytes

/-- Serialize a 32-bit word to four big-endian bytes. -/
def wordBytes (x : Nat) : List Nat :=
  [(x >>> 24) % 256, (x >>> 16) % 256, (x >>> 8) % 256, x % 256]

/-- SHA-256 of a byte list, as the 32 digest bytes
(counterpart of Go `sha256.Sum256`). -/
def sha256 (msg : List Nat) : List Nat :=
  ((chunks64 (sha256Pad msg)).foldl sha256Compress sha256InitH).foldr
    (fun x acc => wordBytes x ++ acc) []

/-- UTF-8 encoding of one character, as bytes
(Go strings are UTF-8 byte sequences; `[]byte(name)` yields these bytes). -/
def utf8EncodeCharNat (c : Char) : List Nat :=
  let n := c.toNat
  if n < 0x80 then [n]
  else if n < 0x800 then
    [0xC0 ||| (n >>> 6), 0x80 ||| (n &&& 0x3F)]
  else if n < 0x10000 then
    [0xE0 ||| (n >>> 12), 0x80 ||| ((n >>> 6) &&& 0x3F), 0x80 ||| (n &&& 0x3F)]
  else
    [0xF0 ||| (n >>> 18), 0x80 ||| ((n >>> 12) &&& 0x3F),
     0x80 ||| ((n >>> 6) &&& 0x3F), 0x80 ||| (n &&& 0x3F)]

/-- The UTF-8 bytes of a string (counterpart of Go `[]byte(s)`). -/
def utf8Bytes (s : String) : List Nat :=
  s.data.foldr (fun c acc => utf8EncodeCharNat c ++ acc) []

/-- Uppercase hexadecimal digit for `n < 16`. -/
def hexDigitU (n : Nat) : Char :=
  if n < 10 then Char.ofNat (48 + n) else Char.ofNat (55 + n)

/-- Two-digit uppercase hexadecimal rendering of a byte
(counterpart of the Go format verb `%02X` on a `uint8`). -/
def hex2 (n : Nat) : String :=
  ⟨[hexDigitU ((n / 16) % 16), hexDigitU (n % 16)]⟩

/-- The big-endian unsigned integer of the first 8 bytes of the SHA-256
digest of a name (the `seed` of `generateColorFromName`). -/
def colorSeed (name : String) : Nat :=
  beWord ((sha256 (utf8Bytes name)).take 8)

/-- Embedding of `generateColorFromName` from the tag service: hash the name
with SHA-256, take the first 8 bytes as a big-endian seed, derive R, G, B as
`80 + (seed >> shift) % 176` for shifts 16, 8, 0, and format as `#RRGGBB`
in uppercase hex. -/
def generateColorFromName (name : String) : String :=
  let seed := colorSeed name
  let r := 80 + (seed >>> 16) % 176
  let g := 80 + (seed >>> 8) % 176
  let b := 80 + seed % 176
  "#" ++ hex2 r ++ hex2 g ++ hex2 b

set_option maxRecDepth 10000 in
example : sha256 [] =
    [0xe3, 0xb0, 0xc4, 0x42, 0x98, 0xfc, 0x1c, 0x14, 0x9a, 0xfb, 0xf4, 0xc8,
     0x99, 0x6f, 0xb9, 0x24, 0x27, 0xae, 0x41, 0xe4, 0x64, 0x9b, 0x93, 0x4c,
     0xa4, 0x95, 0x99, 0x1b, 0x78, 0x52, 0xb8, 0x55] := by decide

set_option maxRecDepth 10000 in
example : generateColorFromName "documents" = "#BACC8C" := by decide

set_option maxRecDepth 10000 in
example : generateColorFromName "a" = "#CBFDDA" := by decide

/-! ## JSON values and the JSON-Schema fragment used by the meta-schema

Postgres `JSONB` columns store parsed JSON values, so they are modelled
structurally.  JSON numbers are modelled as integers (all numbers appearing
in the schemas under verification are integral). -/

mutual
/-- A JSON value.  Arrays and objects carry their own spine types so that
recursion over values stays structural. -/
inductive Json where
  | null : Json
  | bool (b : Bool) : Json
  | num (n : Int) : Json
  | str (s : String) : Json
  | arr (xs : JsonArr) : Json
  | obj (kvs : JsonObj) : Json

/-- The elements of a JSON array. -/
inductive JsonArr where
  | nil : JsonArr
  | cons (hd : Json) (tl : JsonArr) : JsonArr

/-- The fields of a JSON object, in document order. -/
inductive JsonObj where
  | nil : JsonObj
  | cons (k : String) (v : Json) (tl : JsonObj) : JsonObj
end

mutual
/-- Deep equality of JSON values (the deep comparison the Go JSON-Schema
library performs for `const` and `enum`). -/
def Json.beq : Json → Json → Bool
  | .null, .null => true
  | .bool a, .bool b => a == b
  | .num a, .num b => a == b
  | .str a, .str b => a == b
  | .arr xs, .arr ys => JsonArr.beq xs ys
  | .obj xs, .obj ys => JsonObj.beq xs ys
  | _, _ => false

/-- Deep equality of JSON arrays. -/
def JsonArr.beq : JsonArr → JsonArr → Bool
  | .nil, .nil => true
  | .cons x xs, .cons y ys => Json.beq x y && JsonArr.beq xs ys
  | _, _ => false

/-- Deep equality of JSON objects (field order matters, as in a direct
list comparison of parsed fields). -/
def JsonObj.beq : JsonObj → JsonObj → Bool
  | .nil, .nil => true
  | .cons k v xs, .cons k' v' ys => k == k' && Json.beq v v' && JsonObj.beq xs ys
  | _, _ => false
end

/-- First-match lookup of a key in a JSON object. -/
def JsonObj.lookup : JsonObj → String → Option Json
  | .nil, _ => none
  | .cons k v tl, key => if k == key then some v else tl.lookup key

/-- The field names of a JSON object, in order. -/
def JsonObj.keys : JsonObj → List String
  | .nil => []
  | .cons k _ tl => k :: tl.keys

/-- Membership of a key in a JSON object. -/
def JsonObj.hasKey (o : JsonObj) (key : String) : Bool :=
  (o.lookup key).isSome

/-- Conjunction of a Boolean predicate over an object's fields. -/
def JsonObj.allFields : JsonObj → (String → Json → Bool) → Bool
  | .nil, _ => true
  | .cons k v tl, p => p k v && tl.allFields p

/-- Disjunction of a Boolean predicate over an array's elements. -/
def JsonArr.anyElem : JsonArr → (Json → Bool) → Bool
  | .nil, _ => false
  | .cons x tl, p => p x || tl.anyElem p

/-- Conjunction of a Boolean predicate over an array's elements. -/
def JsonArr.allElems : JsonArr → (Json → Bool) → Bool
  | .nil, _ => true
  | .cons x tl, p => p x && tl.allElems p

/-! ### A JSON-Schema validator for the keyword fragment the meta-schema
uses (`type`, `const`, `enum`, `required`, `properties`,
`additionalProperties`, `anyOf`, `items`, `minimum`), with draft-2020-12
semantics as implemented by the Go library.  Recursion into subschemas is
bounded by an explicit fuel (the schema's nesting depth); every use below
supplies fuel exceeding the fixed meta-schema's depth. -/

/-- The `type` keyword: does the instance have the named JSON type?
(With integral-only numbers, `integer` and `number` coincide.) -/
def typeMatches (t : String) (inst : Json) : Bool :=
  match t, inst with
  | "object", .obj _ => true
  | "array", .arr _ => true
  | "string", .str _ => true
  | "number", .num _ => true
  | "integer", .num _ => true
  | "boolean", .bool _ => true
  | "null", .null => true
  | _, _ => false

/-- The sub-schemas under a schema object's `properties` keyword. -/
def getProps : JsonObj → JsonObj
  | .nil => .nil
  | .cons "properties" (.obj ps) _ => ps
  | .cons _ _ tl => getProps tl

/-- `properties`: each declared property with a value present in the
instance must validate (`rec` validates sub-schemas). -/
def validatePropsF (rec : Json → Json → Bool) : JsonObj → JsonObj → Bool
  | .nil, _ => true
  | .cons k sub tl, ikvs =>
    (match ikvs.lookup k with
     | some x => rec sub x
     | none => true) && validatePropsF rec tl ikvs

/-- `additionalProperties`: instance fields not declared under the adjacent
`properties` must validate against the given schema. -/
def validateExtraF (rec : Json → Json → Bool) (ap : Json) (props : JsonObj) :
    JsonObj → Bool
  | .nil => true
  | .cons k x tl =>
    (if (props.lookup k).isSome then true else rec ap x) &&
      validateExtraF rec ap props tl

/-- `anyOf`: some branch validates. -/
def anyOfHoldsF (rec : Json → Json → Bool) : JsonArr → Json → Bool
  | .nil, _ => false
  | .cons s tl, inst => rec s inst || anyOfHoldsF rec tl inst

/-- `items`: every array element validates. -/
def allItemsF (rec : Json → Json → Bool) (s : Json) : JsonArr → Bool
  | .nil => true
  | .cons x tl => rec s x && allItemsF rec s tl

/-- One keyword check. Unknown keywords (including `$schema`) are
annotations and always pass. -/
def checkKwF (rec : Json → Json → Bool) (k : String) (v : Json)
    (props : JsonObj) (inst : Json) : Bool :=
  match k, v with
  | "type", .str t => typeMatches t inst
  | "const", c => Json.beq inst c
  | "enum", .arr vs => vs.anyElem (fun e => Json.beq inst e)
  | "required", .arr rs =>
    (match inst with
     | .obj ikvs => rs.allElems (fun r =>
        match r with
        | .str name => ikvs.hasKey name
        | _ => true)
     | _ => true)
  | "properties", .obj ps =>
    (match inst with
     | .obj ikvs => validatePropsF rec ps ikvs
     | _ => true)
  | "additionalProperties", ap =>
    (match inst with
     | .obj ikvs => validateExtraF rec ap props ikvs
     | _ => true)
  | "anyOf", .arr subs => anyOfHoldsF rec subs inst
  | "items", itemSchema =>
    (match inst with
     | .arr xs => allItemsF rec itemSchema xs
     | _ => true)
  | "minimum", .num m =>
    (match inst with
     | .num x => m ≤ x
     | _ => true)
  | _, _ => true

/-- All keyword checks of one schema object. -/
def validateKwsF (rec : Json → Json → Bool) : JsonObj → JsonObj → Json → Bool
  | .nil, _, _ => true
  | .cons k v tl, props, inst =>
    checkKwF rec k v props inst && validateKwsF rec tl props inst

/-- The fueled validator: boolean schemas decide directly, object schemas
check each keyword, anything else passes. -/
def validateF : Nat → Json → Json → Bool
  | 0, _, _ => false
  | _ + 1, .bool b, _ => b
  | fuel + 1, .obj kvs, inst => validateKwsF (validateF fuel) kvs (getProps kvs) inst
  | _ + 1, _, _ => true

/-- A JSON array of strings. -/
def strJArr : List String → JsonArr
  | [] => .nil
  | s :: l => .cons (.str s) (strJArr l)

/-- The `anyOf` branch of `metaSchemaForPrimitivesOnly` for string-typed
properties. -/
def metaStringBranch : Json :=
  .obj (.cons "properties" (.obj
    (.cons "type" (.obj (.cons "const" (.str "string") .nil))
    (.cons "minLength" (.obj (.cons "type" (.str "integer")
      (.cons "minimum" (.num 0) .nil)))
    (.cons "maxLength" (.obj (.cons "type" (.str "integer")
      (.cons "minimum" (.num 0) .nil)))
    (.cons "pattern" (.obj (.cons "type" (.str "string") .nil))
    (.cons "format" (.obj (.cons "type" (.str "string")
      (.cons "enum" (.arr (strJArr ["date", "time", "date-time", "email",
        "uuid", "uri", "hostname", "ipv4", "ipv6"])) .nil)))
    (.cons "enum" (.obj (.cons "type" (.str "array")
      (.cons "items" (.obj (.cons "type" (.str "string") .nil)) .nil)))
      .nil)))))))
  (.cons "additionalProperties" (.bool true) .nil))

/-- The `anyOf` branch for number-typed properties. -/
def metaNumberBranch : Json :=
  .obj (.cons "properties" (.obj
    (.cons "type" (.obj (.cons "const" (.str "number") .nil))
    (.cons "minimum" (.obj (.cons "type" (.str "number") .nil))
    (.cons "maximum" (.obj (.cons "type" (.str "number") .nil))
    (.cons "enum" (.obj (.cons "type" (.str "array")
      (.cons "items" (.obj (.cons "type" (.str "number") .nil)) .nil)))
      .nil)))))
  (.cons "additionalProperties" (.bool true) .nil))

/-- The `anyOf` branch for integer-typed properties. -/
def metaIntegerBranch : Json :=
  .obj (.cons "properties" (.obj
    (.cons "type" (.obj (.cons "const" (.str "integer") .nil))
    (.cons "minimum" (.obj (.cons "type" (.str "integer") .nil))
    (.cons "maximum" (.obj (.cons "type" (.str "integer") .nil))
    (.cons "enum" (.obj (.cons "type" (.str "array")
      (.cons "items" (.obj (.cons "type" (.str "integer") .nil)) .nil)))
      .nil)))))
  (.cons "additionalProperties" (.bool true) .nil))

/-- The `anyOf` branch for boolean-typed properties. -/
def metaBooleanBranch : Json :=
  .obj (.cons "properties" (.obj
    (.cons "type" (.obj (.cons "const" (.str "boolean") .nil)) .nil))
  (.cons "additionalProperties" (.bool true) .nil))

/-- The per-property schema of the meta-schema: an object declaring a
`type` that falls into one of the four primitive branches. -/
def metaPerProperty : Json :=
  .obj (.cons "type" (.str "object")
    (.cons "required" (.arr (.cons (.str "type") .nil))
    (.cons "anyOf" (.arr (.cons metaStringBranch (.cons metaNumberBranch
      (.cons metaIntegerBranch (.cons metaBooleanBranch .nil))))) .nil)))

/-- `metaSchemaForPrimitivesOnly` as a parsed JSON document: requires
top-level `type` to be the constant `"object"` and every declared property
schema to satisfy `metaPerProperty`. -/
def metaSchemaJson : Json :=
  .obj (.cons "$schema" (.str "https://json-schema.org/draft/2020-12/schema")
    (.cons "type" (.str "object")
    (.cons "required" (.arr (.cons (.str "type") .nil))
    (.cons "properties" (.obj
      (.cons "type" (.obj (.cons "const" (.str "object") .nil))
      (.cons "properties" (.obj (.cons "type" (.str "object")
        (.cons "additionalProperties" metaPerProperty .nil)))
      (.cons "required" (.obj (.cons "type" (.str "array")
        (.cons "items" (.obj (.cons "type" (.str "string") .nil)) .nil)))
        .nil))))
    (.cons "additionalProperties" (.bool true) .nil)))))

/-- Fuel covering the meta-schema's nesting depth. -/
def metaFuel : Nat := 12

/-! ## Data model: rows of the tables of the migration -/

/-- A row of the `namespaces` table. -/
structure Namespace where
  id : Nat
  name : String
  deriving Repr, DecidableEq

/-- A row of the `tags` table. -/
structure Tag where
  id : Nat
  namespaceId : Nat
  name : String
  description : Option String
  path : String
  parentId : Option Nat
  color : Option String
  modifiedAt : Nat
  deriving Repr, DecidableEq

/-- A row of the `attribute_schemas` table (`tagId = none` is the
namespace-global key; the schema document is kept as submitted). -/
structure SchemaRecord where
  tagId : Option Nat
  version : Nat
  jsonSchema : String
  createdAt : Nat
  deriving Repr, DecidableEq

/-- Per-attribute extraction provenance (`AttributeExtractionInfo`). -/
structure AttributeExtractionInfo where
  method : String
  extractedBy : String
  extractedAt : Nat
  source : String
  confidence : Option Int
  deriving Repr, DecidableEq

/-- Provenance metadata for one association (`DocumentTagMetadata`):
one record for the tag association plus one per attribute field. -/
structure DocumentTagMetadata where
  tag : AttributeExtractionInfo
  attributes : List (String × AttributeExtractionInfo)
  deriving Repr, DecidableEq

/-- The zero-valued metadata produced by unmarshalling the `'{}'::jsonb`
column default into the Go struct. -/
def emptyDTMetadata : DocumentTagMetadata :=
  ⟨⟨"", "", 0, "", none⟩, []⟩

/-- A row of the `documents` table (only the columns the attribute
operations touch). -/
structure Document where
  id : Nat
  namespaceId : Nat
  attributes : Option Json
  attributesMetadata : DocumentTagMetadata
  modifiedAt : Nat

/-- A row of the `document_tags` table. -/
structure DocTag where
  documentId : Nat
  tagId : Nat
  attributes : Option Json
  attributesMetadata : DocumentTagMetadata
  modifiedAt : Nat

/-- Events published on the event bus (fire-and-forget). -/
inductive Event where
  | schemaChanged (ns tagPath oldJsonSchema newJsonSchema : String)
  | tagExtracted (documentId : Nat) (ns tagPath : String)
  deriving Repr, DecidableEq

/-- The persistent state: the tables of the migration, plus the published
event log, an id source for fresh rows, and a logical clock for `NOW()`. -/
structure DB where
  namespaces : List Namespace
  tags : List Tag
  schemas : List SchemaRecord
  documents : List Document
  docTags : List DocTag
  events : List Event
  nextId : Nat
  now : Nat

/-- Service-level errors (the `Err*` values of the services, plus the
low-level Postgres constraint violations the services translate). -/
inductive TagErr where
  | namespaceNotFound
  | tagNotFound
  | invalidTagName
  | invalidParentName
  | invalidColor
  | parentTagNotFound
  | invalidParentReference
  | tagAlreadyExists
  | invalidJSONSchema
  | nestedTypesNotAllowed
  | attributeValidationFailed
  | uniqueViolation
  | notNullViolation
  | fkViolation
  | rowNotFound
  deriving Repr, DecidableEq

/-- The gRPC status codes the document service returns. -/
inductive DocErr where
  | notFound
  | invalidArgument
  | internal
  deriving Repr, DecidableEq

/-- The decision of `validateSchemaPrimitivesOnly` on an already-parsed,
standalone-compilable schema document: validate the document itself against
the fixed meta-schema; a violation is `ErrNestedTypesNotAllowed`.  (The
function's earlier stages — `json.Valid` and the standalone compile —
accept every document of the fragment modelled here.) -/
def validateSchemaShape (s : Json) : Except TagErr Unit :=
  if validateF metaFuel metaSchemaJson s then .ok ()
  else .error .nestedTypesNotAllowed

/-! ## sqlc queries (`internal/db/queries`) over the modelled tables -/

/-- `GetNamespaceByName`. -/
def getNamespaceByName (db : DB) (name : String) : Option Namespace :=
  db.namespaces.find? (fun n => n.name == name)

/-- `GetTagByPath`: `SELECT * FROM tags WHERE namespace_id = $1 AND path = $2`. -/
def getTagByPath (db : DB) (nsId : Nat) (path : String) : Option Tag :=
  db.tags.find? (fun t => t.namespaceId == nsId && t.path == path)

/-- `GetTagByID`. -/
def getTagById (db : DB) (id : Nat) : Option Tag :=
  db.tags.find? (fun t => t.id == id)

/-- `CreateTag` (INSERT): rejects with a unique violation exactly when the
migration's `UNIQUE(namespace_id, name)` constraint on `tags` is hit. -/
def dbCreateTag (db : DB) (nsId : Nat) (name : String) (desc : Option String)
    (path : String) (parentId : Option Nat) (color : Option String) :
    Except TagErr (Tag × DB) :=
  if db.tags.any (fun t => t.namespaceId == nsId && t.name == name) then
    .error .uniqueViolation
  else
    let t : Tag := ⟨db.nextId, nsId, name, desc, path, parentId, color, db.now⟩
    .ok (t, { db with tags := db.tags ++ [t], nextId := db.nextId + 1,
                      now := db.now + 1 })

/-- `UpdateTag` (UPDATE with `COALESCE` on every column): a null parameter
keeps the stored value.  The same `UNIQUE(namespace_id, name)` constraint
applies against the other rows. -/
def dbUpdateTag (db : DB) (id : Nat) (name : String) (desc : Option String)
    (path : String) (parentId : Option Nat) (color : Option String) :
    Except TagErr (Tag × DB) :=
  match db.tags.find? (fun t => t.id == id) with
  | none => .error .rowNotFound
  | some old =>
    if db.tags.any (fun t => t.id != id && t.namespaceId == old.namespaceId &&
        t.name == name) then
      .error .uniqueViolation
    else
      let newT : Tag :=
        { old with
          name := name
          description := match desc with | none => old.description | some d => some d
          path := path
          parentId := match parentId with | none => old.parentId | some p => some p
          color := match color with | none => old.color | some c => some c
          modifiedAt := db.now }
      .ok (newT, { db with
        tags := db.tags.map (fun t => if t.id == id then newT else t),
        now := db.now + 1 })

/-- `GetLatestSchemaByTagID`: `ORDER BY version DESC LIMIT 1` over the rows
of one tag key, i.e. the row with the maximum version. -/
def getLatestSchemaByTagId (db : DB) (tagId : Nat) : Option SchemaRecord :=
  db.schemas.foldl
    (fun acc r =>
      if r.tagId == some tagId then
        match acc with
        | none => some r
        | some m => if r.version > m.version then some r else some m
      else acc)
    none

/-- `CreateSchema` (INSERT) together with the
`set_attribute_schema_version` trigger: a `NULL` version is assigned
`COALESCE(MAX(version), 0) + 1` over the rows with `tag_id = NEW.tag_id`
(an SQL comparison, which no row satisfies when `NEW.tag_id` is `NULL`).
The table's `PRIMARY KEY (tag_id, version)` makes `tag_id` NOT NULL in
PostgreSQL, so an insert with the null global key is rejected. -/
def dbCreateSchema (db : DB) (tagId : Option Nat) (jsonSchema : String) :
    Except TagErr (SchemaRecord × DB) :=
  match tagId with
  | none => .error .notNullViolation
  | some k =>
    let maxv := db.schemas.foldl
      (fun m r => if r.tagId == some k && r.version > m then r.version else m) 0
    let rec' : SchemaRecord := ⟨some k, maxv + 1, jsonSchema, db.now⟩
    .ok (rec', { db with schemas := db.schemas ++ [rec'], now := db.now + 1 })

/-- Publishing a `SchemaChanged` event (fire-and-forget; the services ignore
the publisher's error). -/
def publishSchemaChanged (db : DB) (ns tagPath oldS newS : String) : DB :=
  { db with events := db.events ++ [.schemaChanged ns tagPath oldS newS] }

/-! ## Tag service (`TagService` in the services package)

The JSON-schema shape validation performed on a submitted `jsonSchema`
string (Go `json.Valid` plus `validateSchemaPrimitivesOnly`) parses the
string with an external library; the tag-service operations take it as an
explicit functional parameter `schemaCheck`.  Its behaviour on parsed JSON
documents is verified separately with `validateSchemaShape` below. -/

/-- `[a-zA-Z0-9]`. -/
def isAlnumAscii (c : Char) : Bool :=
  ('a' ≤ c && c ≤ 'z') || ('A' ≤ c && c ≤ 'Z') || ('0' ≤ c && c ≤ '9')

/-- `[a-zA-Z0-9_-]`. -/
def isNameChar (c : Char) : Bool :=
  isAlnumAscii c || c == '-' || c == '_'

/-- The tag-name regular expression
`^[a-zA-Z0-9][a-zA-Z0-9_-]{0,98}[a-zA-Z0-9]$|^[a-zA-Z0-9]$`:
1 to 100 name characters, first and last alphanumeric. -/
def tagNameRegexMatch (s : String) : Bool :=
  match s.data with
  | [] => false
  | c :: rest =>
    match rest.reverse with
    | [] => isAlnumAscii c
    | d :: mid =>
      isAlnumAscii c && isAlnumAscii d && mid.all isNameChar && rest.length ≤ 99

/-- `[0-9A-Fa-f]`. -/
def isHexAscii (c : Char) : Bool :=
  ('0' ≤ c && c ≤ '9') || ('A' ≤ c && c ≤ 'F') || ('a' ≤ c && c ≤ 'f')

/-- The color regular expression `^#[0-9A-Fa-f]{6}$`. -/
def colorRegexMatch (s : String) : Bool :=
  match s.data with
  | '#' :: rest => rest.length == 6 && rest.all isHexAscii
  | _ => false

/-- `validateTagInput`: checks the tag name, the optional parent path, the
optional color, and (through `schemaCheck`) the optional JSON schema. -/
def validateTagInput (schemaCheck : String → Except TagErr Unit)
    (name : String) (parentPath color jsonSchema : Option String) :
    Except TagErr Unit :=
  if name == "" then .error .invalidTagName
  else if name.length > 100 then .error .invalidTagName
  else if !tagNameRegexMatch name then .error .invalidTagName
  else
    let parentOk : Except TagErr Unit :=
      match parentPath with
      | some pp =>
        if pp != "" then
          if pp.length > 255 then .error .invalidParentName
          else if !strStartsWith pp "/" then .error .invalidParentName
          else .ok ()
        else .ok ()
      | none => .ok ()
    match parentOk with
    | .error e => .error e
    | .ok _ =>
      let colorOk : Except TagErr Unit :=
        match color with
        | some c =>
          if c != "" then
            if !colorRegexMatch c then .error .invalidColor else .ok ()
          else .ok ()
        | none => .ok ()
      match colorOk with
      | .error e => .error e
      | .ok _ =>
        match jsonSchema with
        | some js => if js != "" then schemaCheck js else .ok ()
        | none => .ok ()

/-- `buildTagPath`. -/
def buildTagPath (parentPath name : String) : String :=
  if parentPath == "" then "/" ++ name
  else trimSuffixSlash parentPath ++ "/" ++ name

/-- `ensureColor`: the provided color, or one generated from the name. -/
def ensureColor (color : Option String) (tagName : String) : String :=
  match color with
  | some c => if c != "" then c else generateColorFromName tagName
  | none => generateColorFromName tagName

/-- `resolveParentForCreate`: no parent path means root; otherwise the
parent is resolved by path in the namespace. -/
def resolveParentForCreate (db : DB) (nsId : Nat) (parentPath : Option String) :
    Except TagErr (Option Nat × String) :=
  match parentPath with
  | none => .ok (none, "")
  | some pp =>
    if pp == "" then .ok (none, "")
    else
      match getTagByPath db nsId pp with
      | none => .error .parentTagNotFound
      | some parent => .ok (some parent.id, parent.path)

/-- `resolveParentForUpdate`: a `none` parent path keeps the current parent,
an empty one moves to root, and an explicit one is resolved by path and then
checked against self-parenting and the current subtree
(`parent.ID == tag.ID || parent.Path == tag.Path ||
strings.HasPrefix(parent.Path, tag.Path+"/")`). -/
def resolveParentForUpdate (db : DB) (nsId : Nat) (currentTag : Tag)
    (parentPath : Option String) : Except TagErr (Option Nat × String) :=
  match parentPath with
  | none =>
    match currentTag.parentId with
    | some pid =>
      match getTagById db pid with
      | none => .error .parentTagNotFound
      | some parent => .ok (some parent.id, parent.path)
    | none => .ok (none, "")
  | some pp =>
    if pp == "" then .ok (none, "")
    else
      match getTagByPath db nsId pp with
      | none => .error .parentTagNotFound
      | some parent =>
        if parent.id == currentTag.id || parent.path == currentTag.path ||
            strStartsWith parent.path (currentTag.path ++ "/") then
          .error .invalidParentReference
        else .ok (some parent.id, parent.path)

/-- The result type of tag operations (`TagWithSchema`). -/
structure TagWithSchema where
  tag : Tag
  schema : Option SchemaRecord
  deriving Repr, DecidableEq

/-- `TagService.CreateTag`: validate input, ensure a color, resolve the
namespace and parent, build the path, insert (translating a unique-constraint
violation into `ErrTagAlreadyExists`), and create + announce the optional
schema. -/
def createTag (schemaCheck : String → Except TagErr Unit) (db : DB)
    (namespaceName name : String)
    (description parentPath color jsonSchema : Option String) :
    Except TagErr TagWithSchema × DB :=
  match validateTagInput schemaCheck name parentPath color jsonSchema with
  | .error e => (.error e, db)
  | .ok _ =>
    let finalColor := ensureColor color name
    match getNamespaceByName db namespaceName with
    | none => (.error .namespaceNotFound, db)
    | some ns =>
      match resolveParentForCreate db ns.id parentPath with
      | .error e => (.error e, db)
      | .ok (parentId, resolvedParentPath) =>
        let path := buildTagPath resolvedParentPath name
        match dbCreateTag db ns.id name description path parentId (some finalColor) with
        | .error _ => (.error .tagAlreadyExists, db)
        | .ok (tag, db1) =>
          match jsonSchema with
          | some js =>
            if js != "" then
              match dbCreateSchema db1 (some tag.id) js with
              | .error e => (.error e, db1)
              | .ok (schema, db2) =>
                (.ok ⟨tag, some schema⟩,
                 publishSchemaChanged db2 ns.name tag.path "" js)
            else (.ok ⟨tag, none⟩, db1)
          | none => (.ok ⟨tag, none⟩, db1)

/-- The updated name used by `UpdateTag`: the submitted new name when
nonempty, otherwise the current name. -/
def resolveUpdateName (tag : Tag) (newName : Option String) : String :=
  match newName with
  | some n => if n != "" then n else tag.name
  | none => tag.name

/-- The color used by `UpdateTag`: the submitted color when nonempty,
otherwise the stored color, otherwise one generated from the updated name. -/
def resolveUpdateColor (tag : Tag) (color : Option String)
    (updateName : String) : Option String :=
  match color with
  | some c =>
    if c != "" then some c
    else
      match tag.color with
      | some tc => some tc
      | none => some (generateColorFromName updateName)
  | none =>
    match tag.color with
    | some tc => some tc
    | none => some (generateColorFromName updateName)

/-- `TagService.UpdateTag`: resolve the namespace and the tag by path, read
the latest schema, determine the updated name, validate, resolve the new
parent, rebuild the path, update the row (translating a unique-constraint
violation into `ErrTagAlreadyExists`), and create a new schema version only
when the submitted schema string differs from the stored latest one. -/
def updateTag (schemaCheck : String → Except TagErr Unit) (db : DB)
    (namespaceName tagPath : String)
    (newName description parentPath color jsonSchema : Option String) :
    Except TagErr TagWithSchema × DB :=
  match getNamespaceByName db namespaceName with
  | none => (.error .namespaceNotFound, db)
  | some ns =>
    match getTagByPath db ns.id tagPath with
    | none => (.error .tagNotFound, db)
    | some tag =>
      let oldSchema := getLatestSchemaByTagId db tag.id
      let updateName := resolveUpdateName tag newName
      match validateTagInput schemaCheck updateName parentPath color jsonSchema with
      | .error e => (.error e, db)
      | .ok _ =>
        match resolveParentForUpdate db ns.id tag parentPath with
        | .error e => (.error e, db)
        | .ok (parentId, resolvedParentPath) =>
          let updatePath := buildTagPath resolvedParentPath updateName
          let updateColor := resolveUpdateColor tag color updateName
          match dbUpdateTag db tag.id updateName description updatePath parentId
              updateColor with
          | .error .uniqueViolation => (.error .tagAlreadyExists, db)
          | .error e => (.error e, db)
          | .ok (tag', db1) =>
            match jsonSchema with
            | some js =>
              if js != "" then
                let oldSchemaStr :=
                  match oldSchema with
                  | some s => s.jsonSchema
                  | none => ""
                if oldSchema.isNone || oldSchemaStr != js then
                  match dbCreateSchema db1 (some tag'.id) js with
                  | .error e => (.error e, db1)
                  | .ok (newSchema, db2) =>
                    (.ok ⟨tag', some newSchema⟩,
                     publishSchemaChanged db2 ns.name tag'.path oldSchemaStr js)
                else (.ok ⟨tag', oldSchema⟩, db1)
              else (.ok ⟨tag', oldSchema⟩, db1)
            | none => (.ok ⟨tag', oldSchema⟩, db1)

/-- One orphan-removal pass: drop the rows whose parent row is gone.
Iterated to a fixpoint this reproduces the `ON DELETE CASCADE` of the
`parent_id` foreign key. -/
def removeOrphans (tags : List Tag) : List Tag :=
  tags.filter (fun t =>
    match t.parentId with
    | none => true
    | some p => tags.any (fun u => u.id == p))

/-- Iterate orphan removal. -/
def iterOrphanRemoval : Nat → List Tag → List Tag
  | 0, ts => ts
  | n + 1, ts => iterOrphanRemoval n (removeOrphans ts)

/-- `DeleteTag` (DELETE) with the referential cascades of the migration:
descendant tags, their schema rows and their document associations are
removed with the tag. -/
def dbDeleteTag (db : DB) (id : Nat) : DB :=
  let tags1 := (db.tags.filter (fun t => t.id != id))
  let tags2 := iterOrphanRemoval tags1.length tags1
  { db with
    tags := tags2
    schemas := db.schemas.filter (fun r =>
      match r.tagId with
      | some k => tags2.any (fun t => t.id == k)
      | none => true)
    docTags := db.docTags.filter (fun dt => tags2.any (fun t => t.id == dt.tagId))
    now := db.now + 1 }

/-- `TagService.DeleteTag`: resolve the namespace and tag, then delete. -/
def deleteTag (db : DB) (namespaceName tagPath : String) :
    Except TagErr Unit × DB :=
  match getNamespaceByName db namespaceName with
  | none => (.error .namespaceNotFound, db)
  | some ns =>
    match getTagByPath db ns.id tagPath with
    | none => (.error .tagNotFound, db)
    | some tag => (.ok (), dbDeleteTag db tag.id)

/-! ## Document service (`DocumentService` in the services package)

Document ids are opaque (`uuid.Parse` of the transport layer is outside the
model); since `JSONB` columns store parsed values, attribute payloads are
modelled as parsed `Json` values and provenance metadata structurally.  The
JSON-Schema instance validation the Go code delegates to the external
library is an explicit functional parameter `attrValid`. -/

/-- A fresh provenance record: method, actor, timestamp, and
`source = method` (as built by the document service). -/
def freshInfo (method extractedBy : String) (now : Nat) :
    AttributeExtractionInfo :=
  ⟨method, extractedBy, now, method, none⟩

/-- Go map assignment on the provenance field map: replace the entry for the
key if present, otherwise add one. -/
def setField (m : List (String × AttributeExtractionInfo)) (k : String)
    (v : AttributeExtractionInfo) : List (String × AttributeExtractionInfo) :=
  if m.any (fun kv => kv.1 == k) then
    m.map (fun kv => if kv.1 == k then (k, v) else kv)
  else m ++ [(k, v)]

/-- Lookup in a provenance field map. -/
def lookupAssoc (m : List (String × AttributeExtractionInfo)) (k : String) :
    Option AttributeExtractionInfo :=
  (m.find? (fun kv => kv.1 == k)).map Prod.snd

/-- Per-field provenance lookup in a metadata record. -/
def lookupField (meta : DocumentTagMetadata) (k : String) :
    Option AttributeExtractionInfo :=
  lookupAssoc meta.attributes k

/-- `updateAttributeExtractionInfo`: stamp a fresh provenance record onto
every field of the submitted payload, leaving other fields alone. -/
def updateAttrExtractionInfo (meta : DocumentTagMetadata)
    (fields : List String) (method extractedBy : String) (now : Nat) :
    DocumentTagMetadata :=
  ⟨meta.tag,
   fields.foldl (fun m f => setField m f (freshInfo method extractedBy now))
     meta.attributes⟩

/-- `createAttributeMetadata`: a fresh association record plus fresh
per-field records. -/
def createAttributeMetadata (fields : List String)
    (method extractedBy : String) (now : Nat) : DocumentTagMetadata :=
  updateAttrExtractionInfo ⟨freshInfo method extractedBy now, []⟩ fields
    method extractedBy now

/-- `GetDocumentByID`. -/
def getDocumentById (db : DB) (docId : Nat) : Option Document :=
  db.documents.find? (fun d => d.id == docId)

/-- `GetDocumentTagAttributes`. -/
def getDocumentTagAttributes (db : DB) (docId tagId : Nat) : Option DocTag :=
  db.docTags.find? (fun dt => dt.documentId == docId && dt.tagId == tagId)

/-- `AddDocumentTag`:
`INSERT ... ON CONFLICT (document_id, tag_id) DO UPDATE SET attributes,
attributes_metadata, modified_at`, subject to the `document_id` foreign
key. -/
def dbAddDocumentTag (db : DB) (docId tagId : Nat) (attrs : Option Json)
    (meta : DocumentTagMetadata) : Except TagErr DB :=
  if db.documents.any (fun d => d.id == docId) then
    if db.docTags.any (fun dt => dt.documentId == docId && dt.tagId == tagId) then
      .ok { db with
        docTags := db.docTags.map (fun dt =>
          if dt.documentId == docId && dt.tagId == tagId then
            { dt with attributes := attrs, attributesMetadata := meta,
                      modifiedAt := db.now }
          else dt)
        now := db.now + 1 }
    else
      .ok { db with docTags := db.docTags ++ [⟨docId, tagId, attrs, meta, db.now⟩],
                    now := db.now + 1 }
  else .error .fkViolation

/-- `UpdateDocumentTagAttributes` (UPDATE of the association row). -/
def dbUpdateDocumentTagAttributes (db : DB) (docId tagId : Nat)
    (attrs : Option Json) (meta : DocumentTagMetadata) : DB :=
  { db with
    docTags := db.docTags.map (fun dt =>
      if dt.documentId == docId && dt.tagId == tagId then
        { dt with attributes := attrs, attributesMetadata := meta,
                  modifiedAt := db.now }
      else dt)
    now := db.now + 1 }

/-- `UpdateDocument` restricted to the columns the attribute path touches
(`COALESCE` keeps stored values for null parameters). -/
def dbUpdateDocument (db : DB) (docId : Nat) (attrs : Option Json)
    (meta : Option DocumentTagMetadata) : Except TagErr (Document × DB) :=
  match getDocumentById db docId with
  | none => .error .rowNotFound
  | some old =>
    let newD : Document :=
      { old with
        attributes := match attrs with | none => old.attributes | some a => some a
        attributesMetadata := match meta with
          | none => old.attributesMetadata
          | some m => m
        modifiedAt := db.now }
    .ok (newD, { db with
      documents := db.documents.map (fun d => if d.id == docId then newD else d)
      now := db.now + 1 })

/-- `TagService.ValidateAttributes`: no stored schema means no validation;
otherwise the latest schema is compiled and the payload validated
(`attrValid` stands for the library validation). -/
def validateAttributes (attrValid : String → Json → Bool) (db : DB)
    (tagId : Nat) (attrs : Json) : Bool :=
  match getLatestSchemaByTagId db tagId with
  | none => true
  | some r => attrValid r.jsonSchema attrs

/-- Publishing a `TagExtracted` event (fire-and-forget). -/
def publishTagExtracted (db : DB) (docId : Nat) (ns tagPath : String) : DB :=
  { db with events := db.events ++ [.tagExtracted docId ns tagPath] }

/-- `DocumentService.AddTagToDocument`: resolve the namespace and tag,
parse and validate the optional payload, build fresh provenance metadata,
upsert the association, and publish a best-effort event. -/
def addTagToDocument (attrValid : String → Json → Bool) (db : DB)
    (nsName : String) (documentId : Nat) (tagPath : String)
    (attributes : Option Json) (extractionMethod extractedBy : String) :
    Except DocErr Unit × DB :=
  match getNamespaceByName db nsName with
  | none => (.error .notFound, db)
  | some ns =>
    match getTagByPath db ns.id tagPath with
    | none => (.error .notFound, db)
    | some tag =>
      match attributes with
      | some (.obj kvs) =>
        if !(validateAttributes attrValid db tag.id (.obj kvs)) then
          (.error .invalidArgument, db)
        else
          let meta := createAttributeMetadata kvs.keys extractionMethod
            extractedBy db.now
          match dbAddDocumentTag db documentId tag.id (some (.obj kvs)) meta with
          | .error _ => (.error .internal, db)
          | .ok db1 => (.ok (), publishTagExtracted db1 documentId nsName tagPath)
      | some _ => (.error .invalidArgument, db)
      | none =>
        let meta := createAttributeMetadata [] extractionMethod extractedBy db.now
        match dbAddDocumentTag db documentId tag.id none meta with
        | .error _ => (.error .internal, db)
        | .ok db1 => (.ok (), publishTagExtracted db1 documentId nsName tagPath)

/-- `DocumentService.UpdateDocumentAttributes`: an empty tag path updates
the document's global attributes with freshly built metadata; a tag path
validates against the tag's latest schema and merges fresh provenance for
the submitted fields into the association's existing metadata. -/
def updateDocumentAttributes (attrValid : String → Json → Bool) (db : DB)
    (nsName : String) (documentId : Nat) (tagPath : String)
    (attributes : Json) : Except DocErr Unit × DB :=
  match getNamespaceByName db nsName with
  | none => (.error .notFound, db)
  | some ns =>
    match attributes with
    | .obj kvs =>
      if tagPath == "" then
        let meta := createAttributeMetadata kvs.keys "manual" "api-user" db.now
        match dbUpdateDocument db documentId (some (.obj kvs)) (some meta) with
        | .error _ => (.error .internal, db)
        | .ok (_, db1) => (.ok (), db1)
      else
        match getTagByPath db ns.id tagPath with
        | none => (.error .notFound, db)
        | some tag =>
          if !(validateAttributes attrValid db tag.id (.obj kvs)) then
            (.error .invalidArgument, db)
          else
            match getDocumentTagAttributes db documentId tag.id with
            | none => (.error .notFound, db)
            | some cur =>
              let meta := updateAttrExtractionInfo cur.attributesMetadata
                kvs.keys "manual" "api-user" db.now
              (.ok (), dbUpdateDocumentTagAttributes db documentId tag.id
                (some (.obj kvs)) meta)
    | _ => (.error .invalidArgument, db)

/-! ## Sequences of tag operations -/

/-- One call into the tag service. -/
inductive TagOp where
  | create (namespaceName name : String)
      (description parentPath color jsonSchema : Option String)
  | update (namespaceName tagPath : String)
      (newName description parentPath color jsonSchema : Option String)
  | delete (namespaceName tagPath : String)

/-- The state after one tag-service call (a failed call leaves the state as
the call left it, i.e. unchanged for calls that fail before writing). -/
def applyTagOp (schemaCheck : String → Except TagErr Unit) (db : DB) :
    TagOp → DB
  | .create n nm d pp c js => (createTag schemaCheck db n nm d pp c js).2
  | .update n p nn d pp c js => (updateTag schemaCheck db n p nn d pp c js).2
  | .delete n p => (deleteTag db n p).2

/-- The state after a sequence of tag-service calls. -/
def runTagOps (schemaCheck : String → Except TagErr Unit) (db : DB)
    (ops : List TagOp) : DB :=
  ops.foldl (applyTagOp schemaCheck) db

/-- An initial state holding a single namespace and nothing else. -/
def initDB (nsName : String) : DB :=
  ⟨[⟨0, nsName⟩], [], [], [], [], [], 1, 0⟩

/-- A schema check that accepts everything (used to instantiate concrete
scenarios whose operations carry no JSON schema). -/
def scOk : String → Except TagErr Unit := fun _ => .ok ()

/-! ## C1: uniqueness governing tag creation -/

/-- The state of the repository's own duplicate-path test: tags `parent`
(`/parent`), `child` (`/parent/child`) and `parent2` (`/parent2`) in one
namespace. -/
def c1DB : DB :=
  runTagOps scOk (initDB "duplicate-test")
    [.create "duplicate-test" "parent" none none (some "#112233") none,
     .create "duplicate-test" "child" none (some "/parent") (some "#112233") none,
     .create "duplicate-test" "parent2" none none (some "#112233") none]

/-- C1: the claim says creation is governed by `(namespace, path)` uniqueness,
so a second tag named `child` under the different parent `/parent2` must
succeed.  On the code it fails: the migration's `tags` table carries
`UNIQUE(namespace_id, name)`, so the insert of `/parent2/child` is rejected
with `AlreadyExists` although no stored tag has that path.  This contradicts
the repository's own integration test (`TestTagDuplicatePaths` requires this
create to succeed), so the constraint is a defect in the code, not in the
claim. -/
theorem c1_createTag_name_unique_code_bug :
    (createTag scOk c1DB "duplicate-test" "child" none (some "/parent2")
        (some "#112233") none).1 = .error .tagAlreadyExists ∧
    c1DB.tags.all (fun t => t.path != "/parent2/child") = true ∧
    c1DB.tags.any (fun t => t.path == "/parent/child") = true :=
  ⟨rfl, rfl, rfl⟩

/-! ## C9: deterministic color derivation -/

/-- Hexadecimal digits below 16 render to uppercase-hex characters. -/
theorem hexDigitU_mem : ∀ m, m < 16 →
    hexDigitU m ∈ ("0123456789ABCDEF" : String).data := by
  decide

/-- Both characters of a `hex2` rendering are uppercase-hex characters. -/
theorem hex2_uppercase (x : Nat) :
    ∀ c ∈ (hex2 x).data, c ∈ ("0123456789ABCDEF" : String).data := by
  intro c hc
  rcases List.mem_cons.mp hc with h | h
  · exact h ▸ hexDigitU_mem _ (Nat.mod_lt _ (by omega))
  · rcases List.mem_cons.mp h with h' | h'
    · exact h' ▸ hexDigitU_mem _ (Nat.mod_lt _ (by omega))
    · exact absurd h' (List.not_mem_nil c)

/-- C9: `generateColorFromName` renders `#RRGGBB` from the seed that is the
big-endian integer of the first 8 bytes of the SHA-256 digest of the name,
with `R,G,B = 80 + (seed >> 16|8|0) % 176` — each in `80..255` — in
uppercase hex, and it is deterministic. -/
theorem c9_generateColorFromName_spec (n : String) :
    generateColorFromName n
      = "#" ++ hex2 (80 + (colorSeed n >>> 16) % 176)
          ++ hex2 (80 + (colorSeed n >>> 8) % 176)
          ++ hex2 (80 + colorSeed n % 176) ∧
    colorSeed n = beWord ((sha256 (utf8Bytes n)).take 8) ∧
    (80 ≤ 80 + (colorSeed n >>> 16) % 176 ∧
      80 + (colorSeed n >>> 16) % 176 ≤ 255) ∧
    (80 ≤ 80 + (colorSeed n >>> 8) % 176 ∧
      80 + (colorSeed n >>> 8) % 176 ≤ 255) ∧
    (80 ≤ 80 + colorSeed n % 176 ∧ 80 + colorSeed n % 176 ≤ 255) ∧
    (∀ c ∈ ((hex2 (80 + (colorSeed n >>> 16) % 176)).data ++
            (hex2 (80 + (colorSeed n >>> 8) % 176)).data ++
            (hex2 (80 + colorSeed n % 176)).data),
      c ∈ ("0123456789ABCDEF" : String).data) ∧
    generateColorFromName n = generateColorFromName n := by
  refine ⟨rfl, rfl, ?_, ?_, ?_, ?_, rfl⟩
  · have := @Nat.mod_lt (colorSeed n >>> 16) 176 (by omega)
    omega
  · have := @Nat.mod_lt (colorSeed n >>> 8) 176 (by omega)
    omega
  · have := @Nat.mod_lt (colorSeed n) 176 (by omega)
    omega
  · intro c hc
    rcases List.mem_append.mp hc with h | h
    · rcases List.mem_append.mp h with h' | h'
      · exact hex2_uppercase _ c h'
      · exact hex2_uppercase _ c h'
    · exact hex2_uppercase _ c h

/-! ## Frame lemmas for the row-level operations -/

/-- A successful `UpdateTag` query touches exactly the addressed row and
nothing else: the returned row keeps the addressed id, the tag list is the
pointwise replacement of that row, and every other table is untouched. -/
theorem dbUpdateTag_ok_spec {db : DB} {id : Nat} {name : String}
    {desc : Option String} {path : String} {parentId : Option Nat}
    {color : Option String} {t' : Tag} {db1 : DB}
    (h : dbUpdateTag db id name desc path parentId color = .ok (t', db1)) :
    t'.id = id ∧
    db1.tags = db.tags.map (fun t => if t.id == id then t' else t) ∧
    db1.namespaces = db.namespaces ∧ db1.schemas = db.schemas ∧
    db1.documents = db.documents ∧ db1.docTags = db.docTags ∧
    db1.events = db.events := by
  unfold dbUpdateTag at h
  split at h
  · exact absurd h (by simp)
  case _ old hfind =>
    split at h
    · exact absurd h (by simp)
    · simp only [Except.ok.injEq, Prod.mk.injEq] at h
      obtain ⟨h1, h2⟩ := h
      have hid : old.id = id := by
        have := List.find?_some hfind
        simpa using this
      subst h2
      refine ⟨?_, ?_, rfl, rfl, rfl, rfl, rfl⟩
      · rw [← h1]; exact hid
      · simp [← h1]

/-- A successful `CreateSchema` query appends one schema row and leaves the
other tables untouched. -/
theorem dbCreateSchema_ok_spec {db : DB} {k : Option Nat} {js : String}
    {r : SchemaRecord} {db2 : DB}
    (h : dbCreateSchema db k js = .ok (r, db2)) :
    db2.tags = db.tags ∧ db2.namespaces = db.namespaces ∧
    db2.documents = db.documents ∧ db2.docTags = db.docTags ∧
    db2.events = db.events := by
  unfold dbCreateSchema at h
  match k, h with
  | some k, h =>
    simp only [Except.ok.injEq, Prod.mk.injEq] at h
    obtain ⟨-, h2⟩ := h
    subst h2
    exact ⟨rfl, rfl, rfl, rfl, rfl⟩

/-! ## C2: the hierarchy invariant over reachable states -/

/-- Path-formula check for one tag: its stored path equals its parent's
stored path plus `"/"` plus its own name, or `"/"` plus its name at root. -/
def parentLinkB (tags : List Tag) (t : Tag) : Bool :=
  match t.parentId with
  | none => t.path == "/" ++ t.name
  | some p => tags.any (fun pt => pt.id == p && t.path == pt.path ++ "/" ++ t.name)

/-- The path formula holds for every stored tag. -/
def pathFormulaOk (tags : List Tag) : Bool :=
  tags.all (parentLinkB tags)

/-- Stored paths are unique within a namespace. -/
def pathsUniquePerNamespace (tags : List Tag) : Bool :=
  tags.all (fun t => tags.all (fun u =>
    !(t.namespaceId == u.namespaceId && t.path == u.path) || t == u))

/-- The ancestor relation generated by the stored `parent_id` links. -/
inductive Ancestor (tags : List Tag) : Nat → Nat → Prop where
  | parent {t : Tag} {a : Nat} : t ∈ tags → t.parentId = some a →
      Ancestor tags a t.id
  | trans {a b c : Nat} : Ancestor tags a b → Ancestor tags b c →
      Ancestor tags a c

/-- The invariant claimed for every reachable state: the path formula, no
tag its own ancestor, and path uniqueness per namespace. -/
def TagInv (tags : List Tag) : Prop :=
  pathFormulaOk tags = true ∧ (∀ i, ¬ Ancestor tags i i) ∧
    pathsUniquePerNamespace tags = true

/-- `[a-zA-Z0-9]` characters are not the path separator. -/
theorem isAlnumAscii_ne_slash {c : Char} (h : isAlnumAscii c = true) :
    c ≠ '/' := by
  intro he; subst he; exact absurd h (by decide)

/-- `[a-zA-Z0-9_-]` characters are not the path separator. -/
theorem isNameChar_ne_slash {c : Char} (h : isNameChar c = true) :
    c ≠ '/' := by
  intro he; subst he; exact absurd h (by decide)

/-- A valid tag name is nonempty and contains no `/`. -/
theorem tagName_no_slash {s : String} (h : tagNameRegexMatch s = true) :
    s.data ≠ [] ∧ '/' ∉ s.data := by
  unfold tagNameRegexMatch at h
  rcases hd : s.data with - | ⟨c, rest⟩
  · rw [hd] at h; exact absurd h (by simp)
  rw [hd] at h
  dsimp only at h
  rcases hr : rest.reverse with - | ⟨d, mid⟩
  · have hrest : rest = [] := by simpa using congrArg List.reverse hr
    subst hrest
    refine ⟨by simp, ?_⟩
    intro hm
    simp only [List.mem_singleton] at hm
    subst hm
    exact absurd h (by decide)
  · rw [hr] at h
    simp only [Bool.and_eq_true] at h
    obtain ⟨⟨⟨hc, hd2⟩, hmid⟩, -⟩ := h
    have hrest : rest = mid.reverse ++ [d] := by
      have := congrArg List.reverse hr
      simpa using this
    subst hrest
    refine ⟨by simp, ?_⟩
    intro hm
    rcases List.mem_cons.mp hm with hm | hm
    · exact isAlnumAscii_ne_slash hc hm.symm
    rcases List.mem_append.mp hm with hm | hm
    · have : '/' ∈ mid := List.mem_reverse.mp hm
      exact isNameChar_ne_slash (List.all_eq_true.mp hmid _ this) rfl
    · simp only [List.mem_singleton] at hm
      exact isAlnumAscii_ne_slash hd2 hm.symm

/-- Cancellation of a trailing slash-free run after the last `/`:
if `xs ++ '/' :: xr = ys ++ '/' :: yr` with `xs`, `ys` slash-free then the
two decompositions agree. -/
theorem append_slash_cancel {xs ys xr yr : List Char}
    (hx : '/' ∉ xs) (hy : '/' ∉ ys)
    (h : xs ++ '/' :: xr = ys ++ '/' :: yr) : xs = ys ∧ xr = yr := by
  induction xs generalizing ys with
  | nil =>
    cases ys with
    | nil => simpa using h
    | cons y ys =>
      simp only [List.nil_append, List.cons_append, List.cons.injEq] at h
      exact absurd (h.1 ▸ List.mem_cons_self y ys) hy
  | cons x xs ih =>
    cases ys with
    | nil =>
      simp only [List.cons_append, List.nil_append, List.cons.injEq] at h
      exact absurd (h.1.symm ▸ List.mem_cons_self x xs) hx
    | cons y ys =>
      simp only [List.cons_append, List.cons.injEq] at h
      obtain ⟨hxy, ht⟩ := h
      have hrec := ih (fun hm => hx (List.mem_cons_of_mem _ hm))
        (fun hm => hy (List.mem_cons_of_mem _ hm)) ht
      exact ⟨by rw [hxy, hrec.1], hrec.2⟩

/-- The characters of `"/"`. -/
theorem slash_data : ("/" : String).data = ['/'] := rfl

/-- Two decompositions of one character list as
`prior ++ '/' :: slash-free-run` have the same final run: the run after the
last `/` is unique. -/
theorem suffix_slash_cancel {A B n m : List Char}
    (hn : '/' ∉ n) (hm : '/' ∉ m)
    (h : A ++ '/' :: n = B ++ '/' :: m) : n = m := by
  have hrev := congrArg List.reverse h
  simp only [List.reverse_append, List.reverse_cons, List.append_assoc,
    List.singleton_append] at hrev
  have := append_slash_cancel
    (fun hc => hn (List.mem_reverse.mp hc))
    (fun hc => hm (List.mem_reverse.mp hc)) hrev
  exact List.reverse_inj.mp this.1

/-- The strong induction invariant for states reachable without `updateTag`:
distinct bounded ids, valid names, the migration's name-per-namespace
uniqueness, parent links with the path formula, and acyclicity. -/
structure SInv (tags : List Tag) (nextId : Nat) : Prop where
  nodup : (tags.map Tag.id).Nodup
  bound : ∀ t ∈ tags, t.id < nextId
  names : ∀ t ∈ tags, tagNameRegexMatch t.name = true
  nameUniq : ∀ t ∈ tags, ∀ u ∈ tags,
    t.namespaceId = u.namespaceId → t.name = u.name → t = u
  link : ∀ t ∈ tags, ∀ p, t.parentId = some p →
    ∃ pt ∈ tags, pt.id = p ∧ t.path = pt.path ++ "/" ++ t.name
  root : ∀ t ∈ tags, t.parentId = none → t.path = "/" ++ t.name
  acyc : ∀ i, ¬ Ancestor tags i i

/-- Under the invariant every stored path decomposes as
`prior ++ '/' :: name`. -/
theorem SInv.path_shape {tags : List Tag} {nextId : Nat}
    (inv : SInv tags nextId) {t : Tag} (ht : t ∈ tags) :
    ∃ A, t.path.data = A ++ '/' :: t.name.data := by
  rcases hp : t.parentId with - | p
  · refine ⟨[], ?_⟩
    rw [inv.root t ht hp, String.data_append, slash_data]
    rfl
  · obtain ⟨pt, hpt, -, heq⟩ := inv.link t ht p hp
    refine ⟨pt.path.data, ?_⟩
    rw [heq, String.data_append, String.data_append, slash_data,
      List.append_assoc]
    rfl

/-- `strings.TrimSuffix(s, "/")` is the identity on strings ending in a
nonempty slash-free run after a `/`. -/
theorem trimSuffixSlash_eq_self {s : String} {A n : List Char}
    (hs : s.data = A ++ '/' :: n) (hn : n ≠ []) (hslash : '/' ∉ n) :
    trimSuffixSlash s = s := by
  unfold trimSuffixSlash
  rcases hnr : n.reverse with - | ⟨c, cs⟩
  · exact absurd (by simpa using congrArg List.reverse hnr) hn
  have hc : c ∈ n := by
    have : c ∈ n.reverse := by rw [hnr]; exact List.mem_cons_self c cs
    exact List.mem_reverse.mp this
  have hcs : c ≠ '/' := fun he => hslash (he ▸ hc)
  have hrev : s.data.reverse = c :: (cs ++ '/' :: A.reverse) := by
    rw [hs]
    simp [List.reverse_append, hnr]
  rw [hrev]
  split
  · next heq =>
    rw [List.cons.injEq] at heq
    exact absurd heq.1 hcs
  · rfl

/-- Under the invariant, `buildTagPath` applied to a stored parent's path is
plain concatenation (the trailing-slash trim never fires). -/
theorem buildTagPath_parent {tags : List Tag} {nextId : Nat}
    (inv : SInv tags nextId) {pt : Tag} (hpt : pt ∈ tags) (name : String) :
    buildTagPath pt.path name = pt.path ++ "/" ++ name := by
  obtain ⟨A, hshape⟩ := inv.path_shape hpt
  obtain ⟨hnn, hns⟩ := tagName_no_slash (inv.names pt hpt)
  have hne : pt.path ≠ "" := by
    intro he
    rw [he] at hshape
    exact absurd hshape.symm (by simp)
  unfold buildTagPath
  rw [if_neg (by simpa using hne), trimSuffixSlash_eq_self hshape hnn hns]

/-- Every ancestor is recorded as some stored tag's parent. -/
theorem Ancestor.source {tags : List Tag} {a b : Nat}
    (h : Ancestor tags a b) : ∃ u ∈ tags, u.parentId = some a := by
  induction h with
  | parent hmem hp => exact ⟨_, hmem, hp⟩
  | trans _ _ ih1 _ => exact ih1

/-- Ancestry is monotone in the stored tag list. -/
theorem Ancestor.mono {tags tags' : List Tag}
    (hsub : ∀ t ∈ tags, t ∈ tags') {a b : Nat}
    (h : Ancestor tags a b) : Ancestor tags' a b := by
  induction h with
  | parent hmem hp => exact .parent (hsub _ hmem) hp
  | trans _ _ ih1 ih2 => exact .trans ih1 ih2

/-- Under the invariant, stored parent references carry ids below `nextId`. -/
theorem SInv.parent_lt {tags : List Tag} {nextId : Nat}
    (inv : SInv tags nextId) {u : Tag} (hu : u ∈ tags) {q : Nat}
    (hq : u.parentId = some q) : q < nextId := by
  obtain ⟨pt, hpt, hid, -⟩ := inv.link u hu q hq
  exact hid ▸ inv.bound pt hpt

/-- Under the invariant, `nextId` is never an ancestor. -/
theorem SInv.no_ancestor_nextId {tags : List Tag} {nextId : Nat}
    (inv : SInv tags nextId) {m : Nat} (h : Ancestor tags nextId m) : False := by
  obtain ⟨u, hu, hq⟩ := h.source
  exact absurd (inv.parent_lt hu hq) (lt_irrefl _)

/-- Decomposition of ancestry after appending a fresh row: either it was
already present, or it ends at the fresh row through its parent link. -/
theorem ancestor_insert {tags : List Tag} {nextId : Nat}
    (inv : SInv tags nextId) {t₀ : Tag} (hid : t₀.id = nextId)
    (hpar : t₀.parentId = none ∨ ∃ pt ∈ tags, t₀.parentId = some pt.id)
    {x y : Nat} (h : Ancestor (tags ++ [t₀]) x y) :
    Ancestor tags x y ∨
      (y = nextId ∧ (t₀.parentId = some x ∨
        ∃ m, t₀.parentId = some m ∧ Ancestor tags x m)) := by
  have hparlt : ∀ q, t₀.parentId = some q → q < nextId := by
    intro q hq
    rcases hpar with hp | ⟨pt, hpt, hp⟩
    · rw [hp] at hq; exact absurd hq (by simp)
    · rw [hp] at hq
      obtain rfl : pt.id = q := by simpa using hq
      exact inv.bound pt hpt
  induction h with
  | parent hmem hp =>
    rcases List.mem_append.mp hmem with hm | hm
    · exact Or.inl (.parent hm hp)
    · simp only [List.mem_singleton] at hm
      subst hm
      exact Or.inr ⟨hid, Or.inl hp⟩
  | trans h1 h2 ih1 ih2 =>
    rcases ih2 with hA | ⟨hy, hc⟩
    · rcases ih1 with hB | ⟨hm, -⟩
      · exact Or.inl (.trans hB hA)
      · subst hm
        exact absurd hA inv.no_ancestor_nextId
    · rcases ih1 with hB | ⟨hm, hc'⟩
      · refine Or.inr ⟨hy, Or.inr ?_⟩
        rcases hc with hp | ⟨m', hp', hAm⟩
        · exact ⟨_, hp, hB⟩
        · exact ⟨m', hp', .trans hB hAm⟩
      · subst hm
        rcases hc with hp | ⟨m', hp', hAm⟩
        · exact absurd (hparlt _ hp) (lt_irrefl _)
        · exact absurd hAm inv.no_ancestor_nextId

/-- Insertion preserves the strong invariant: the row inserted by a
successful `CreateTag` carries a fresh id, a validated name not reusing a
`(namespace, name)` pair, and a path built from its resolved parent. -/
theorem sinv_insert {tags : List Tag} {nextId : Nat} (inv : SInv tags nextId)
    {nsId now : Nat} {name path : String} {desc color : Option String}
    {parentId : Option Nat}
    (hname : tagNameRegexMatch name = true)
    (hnodup : tags.any (fun t => t.namespaceId == nsId && t.name == name) = false)
    (hparent : (parentId = none ∧ path = "/" ++ name) ∨
      ∃ pt ∈ tags, parentId = some pt.id ∧ path = pt.path ++ "/" ++ name) :
    SInv (tags ++ [⟨nextId, nsId, name, desc, path, parentId, color, now⟩])
      (nextId + 1) := by
  set t₀ : Tag := ⟨nextId, nsId, name, desc, path, parentId, color, now⟩ with ht₀
  have hfresh : ∀ t ∈ tags, t.id ≠ nextId :=
    fun t ht => Nat.ne_of_lt (inv.bound t ht)
  have hnodup' : ∀ t ∈ tags, ¬(t.namespaceId = nsId ∧ t.name = name) := by
    intro t ht hcon
    have := List.any_eq_false.mp hnodup t ht
    simp only [Bool.and_eq_true, beq_iff_eq] at this
    exact this hcon
  have hpar' : t₀.parentId = none ∨ ∃ pt ∈ tags, t₀.parentId = some pt.id := by
    rcases hparent with ⟨hp, -⟩ | ⟨pt, hpt, hp, -⟩
    · exact Or.inl hp
    · exact Or.inr ⟨pt, hpt, hp⟩
  refine ⟨?_, ?_, ?_, ?_, ?_, ?_, ?_⟩
  · rw [List.map_append]
    refine List.Nodup.append inv.nodup (by simp) ?_
    intro x hx hy
    simp only [List.map_cons, List.map_nil, List.mem_singleton] at hy
    obtain ⟨t, ht, hxt⟩ := List.mem_map.mp hx
    exact hfresh t ht (by rw [← hxt] at hy; exact hy)
  · intro t ht
    rcases List.mem_append.mp ht with hm | hm
    · exact Nat.lt_succ_of_lt (inv.bound t hm)
    · simp only [List.mem_singleton] at hm
      subst hm
      exact Nat.lt_succ_self _
  · intro t ht
    rcases List.mem_append.mp ht with hm | hm
    · exact inv.names t hm
    · simp only [List.mem_singleton] at hm
      subst hm
      exact hname
  · intro t ht u hu hns hnm
    rcases List.mem_append.mp ht with hm | hm <;>
      rcases List.mem_append.mp hu with hm' | hm'
    · exact inv.nameUniq t hm u hm' hns hnm
    · simp only [List.mem_singleton] at hm'
      subst hm'
      exact absurd ⟨hns, hnm⟩ (hnodup' t hm)
    · simp only [List.mem_singleton] at hm
      subst hm
      exact absurd ⟨hns.symm, hnm.symm⟩ (hnodup' u hm')
    · simp only [List.mem_singleton] at hm hm'
      rw [hm, hm']
  · intro t ht p hp
    rcases List.mem_append.mp ht with hm | hm
    · obtain ⟨pt, hpt, hpid, hpath⟩ := inv.link t hm p hp
      exact ⟨pt, List.mem_append_left _ hpt, hpid, hpath⟩
    · simp only [List.mem_singleton] at hm
      subst hm
      have hp' : parentId = some p := hp
      rcases hparent with ⟨hpid, -⟩ | ⟨pt, hpt, hpid, hpath⟩
      · rw [hpid] at hp'; exact absurd hp' (by simp)
      · rw [hpid] at hp'
        obtain rfl : pt.id = p := by simpa using hp'
        exact ⟨pt, List.mem_append_left _ hpt, rfl, hpath⟩
  · intro t ht hp
    rcases List.mem_append.mp ht with hm | hm
    · exact inv.root t hm hp
    · simp only [List.mem_singleton] at hm
      subst hm
      have hp' : parentId = none := hp
      rcases hparent with ⟨-, hpath⟩ | ⟨pt, hpt, hpid, -⟩
      · exact hpath
      · rw [hpid] at hp'; exact absurd hp' (by simp)
  · intro i hA
    rcases ancestor_insert inv rfl hpar' hA with hB | ⟨hi, hc⟩
    · exact inv.acyc i hB
    · rcases hc with hp | ⟨m, hp, hAm⟩
      · rcases hpar' with hq | ⟨pt, hpt, hq⟩
        · rw [hq] at hp; exact absurd hp (by simp)
        · rw [hq] at hp
          obtain hpe : pt.id = i := by simpa using hp
          rw [hi] at hpe
          exact absurd (hpe ▸ inv.bound pt hpt) (lt_irrefl _)
      · exact inv.no_ancestor_nextId (hi ▸ hAm)

/-- One orphan-removal pass only shrinks the list. -/
theorem removeOrphans_sublist (ts : List Tag) :
    (removeOrphans ts).Sublist ts :=
  List.filter_sublist ts

/-- Iterated orphan removal only shrinks the list. -/
theorem iterOrphanRemoval_sublist (n : Nat) (ts : List Tag) :
    (iterOrphanRemoval n ts).Sublist ts := by
  induction n generalizing ts with
  | zero => exact List.Sublist.refl ts
  | succ n ih =>
    exact ((ih (removeOrphans ts)).trans (removeOrphans_sublist ts))

/-- A fixpoint of one pass is a fixpoint of any number of passes. -/
theorem removeOrphans_fixed_iter {ts : List Tag}
    (h : removeOrphans ts = ts) : ∀ n, iterOrphanRemoval n ts = ts := by
  intro n
  induction n with
  | zero => rfl
  | succ n ih =>
    show iterOrphanRemoval n (removeOrphans ts) = ts
    rw [h, ih]

/-- With fuel at least the list length, iterated orphan removal reaches a
fixpoint of `removeOrphans`. -/
theorem iterOrphanRemoval_fix : ∀ {n : Nat} {ts : List Tag},
    ts.length ≤ n →
    removeOrphans (iterOrphanRemoval n ts) = iterOrphanRemoval n ts := by
  intro n
  induction n with
  | zero =>
    intro ts h
    have : ts = [] := List.eq_nil_of_length_eq_zero (Nat.le_zero.mp h)
    subst this
    rfl
  | succ n ih =>
    intro ts h
    by_cases hfix : removeOrphans ts = ts
    · rw [show iterOrphanRemoval (n + 1) ts = ts from removeOrphans_fixed_iter hfix (n + 1)]
      exact hfix
    · have hlt : (removeOrphans ts).length < ts.length := by
        have hle := (removeOrphans_sublist ts).length_le
        rcases Nat.lt_or_ge (removeOrphans ts).length ts.length with hl | hg
        · exact hl
        · exact absurd ((removeOrphans_sublist ts).eq_of_length
            (Nat.le_antisymm hle hg)) hfix
      exact ih (Nat.le_of_lt_succ (Nat.lt_of_lt_of_le hlt h))

/-- At a fixpoint of orphan removal every surviving tag's parent survives. -/
theorem fix_parents_present {ts : List Tag} (h : removeOrphans ts = ts) :
    ∀ t ∈ ts, ∀ p, t.parentId = some p → ∃ u ∈ ts, u.id = p := by
  have hall := List.filter_eq_self.mp h
  intro t ht p hp
  have hpred := hall t ht
  rw [hp] at hpred
  dsimp only at hpred
  obtain ⟨u, hu, he⟩ := List.any_eq_true.mp hpred
  exact ⟨u, hu, by simpa using he⟩

/-- The strong invariant restricts to any sublist whose parents survive. -/
theorem sinv_subset {tags tags' : List Tag} {nextId : Nat}
    (inv : SInv tags nextId) (hsub : tags'.Sublist tags)
    (hpar : ∀ t ∈ tags', ∀ p, t.parentId = some p → ∃ u ∈ tags', u.id = p) :
    SInv tags' nextId := by
  have hmem : ∀ t ∈ tags', t ∈ tags := fun t ht => hsub.subset ht
  refine ⟨?_, ?_, ?_, ?_, ?_, ?_, ?_⟩
  · exact (hsub.map Tag.id).nodup inv.nodup
  · exact fun t ht => inv.bound t (hmem t ht)
  · exact fun t ht => inv.names t (hmem t ht)
  · exact fun t ht u hu => inv.nameUniq t (hmem t ht) u (hmem u hu)
  · intro t ht p hp
    obtain ⟨pt, hpt, hid, hpath⟩ := inv.link t (hmem t ht) p hp
    obtain ⟨u, hu, huid⟩ := hpar t ht p hp
    have : u = pt :=
      List.inj_on_of_nodup_map inv.nodup (hmem u hu) hpt (huid.trans hid.symm)
    exact ⟨u, hu, huid, this ▸ hpath⟩
  · exact fun t ht => inv.root t (hmem t ht)
  · exact fun i hA => inv.acyc i (hA.mono hmem)

/-- Deleting a tag (with its referential cascade) preserves the strong
invariant. -/
theorem sinv_dbDeleteTag {db : DB} (inv : SInv db.tags db.nextId) (id : Nat) :
    SInv (dbDeleteTag db id).tags (dbDeleteTag db id).nextId := by
  unfold dbDeleteTag
  dsimp only
  have h1 : (db.tags.filter (fun t => t.id != id)).Sublist db.tags :=
    List.filter_sublist _
  have hfix := iterOrphanRemoval_fix
    (le_refl (db.tags.filter (fun t => t.id != id)).length)
  have h2 := iterOrphanRemoval_sublist
    (db.tags.filter (fun t => t.id != id)).length
    (db.tags.filter (fun t => t.id != id))
  exact sinv_subset inv (h2.trans h1) (fix_parents_present hfix)

/-- Successful input validation implies the name matched the tag-name
regular expression. -/
theorem validateTagInput_ok_name {sc : String → Except TagErr Unit}
    {nm : String} {pp c js : Option String}
    (h : validateTagInput sc nm pp c js = .ok ()) :
    tagNameRegexMatch nm = true := by
  unfold validateTagInput at h
  split at h
  · exact absurd h (by simp)
  split at h
  · exact absurd h (by simp)
  split at h
  case _ hn =>
    exact absurd h (by simp)
  case _ hn =>
    simpa using hn

/-- A successful parent resolution for create yields either the root or a
stored parent row. -/
theorem resolveParentForCreate_ok {db : DB} {nsId : Nat} {pp : Option String}
    {parentId : Option Nat} {ppath : String}
    (h : resolveParentForCreate db nsId pp = .ok (parentId, ppath)) :
    (parentId = none ∧ ppath = "") ∨
      ∃ pt ∈ db.tags, parentId = some pt.id ∧ ppath = pt.path := by
  unfold resolveParentForCreate at h
  rcases pp with - | s
  · simp only [Except.ok.injEq, Prod.mk.injEq] at h
    exact Or.inl ⟨h.1.symm, h.2.symm⟩
  dsimp only at h
  split at h
  · simp only [Except.ok.injEq, Prod.mk.injEq] at h
    exact Or.inl ⟨h.1.symm, h.2.symm⟩
  rcases hf : getTagByPath db nsId s with - | pt
  · rw [hf] at h; exact absurd h (by simp)
  rw [hf] at h
  simp only [Except.ok.injEq, Prod.mk.injEq] at h
  exact Or.inr ⟨pt, List.mem_of_find?_eq_some hf, h.1.symm, h.2.symm⟩

/-- A successful `CreateTag` insert appends exactly the fresh row after the
uniqueness check passed. -/
theorem dbCreateTag_ok_spec {db : DB} {nsId : Nat} {nm : String}
    {d : Option String} {path : String} {pid : Option Nat}
    {col : Option String} {tag : Tag} {db1 : DB}
    (h : dbCreateTag db nsId nm d path pid col = .ok (tag, db1)) :
    db.tags.any (fun t => t.namespaceId == nsId && t.name == nm) = false ∧
    tag = ⟨db.nextId, nsId, nm, d, path, pid, col, db.now⟩ ∧
    db1.tags = db.tags ++ [tag] ∧ db1.nextId = db.nextId + 1 := by
  unfold dbCreateTag at h
  split at h
  · exact absurd h (by simp)
  case _ hcond =>
    simp only [Except.ok.injEq, Prod.mk.injEq] at h
    obtain ⟨h1, h2⟩ := h
    subst h2
    exact ⟨by simpa using hcond, h1.symm, by rw [h1], rfl⟩

/-- `createTag` preserves the strong invariant, whatever its arguments and
outcome. -/
theorem sinv_createTag (sc : String → Except TagErr Unit) {db : DB}
    (inv : SInv db.tags db.nextId) (n nm : String)
    (d pp c js : Option String) :
    SInv ((createTag sc db n nm d pp c js).2).tags
      ((createTag sc db n nm d pp c js).2).nextId := by
  unfold createTag
  rcases hv : validateTagInput sc nm pp c js with e | u
  · exact inv
  dsimp only
  rcases hns : getNamespaceByName db n with - | ns
  · exact inv
  dsimp only
  rcases hpr : resolveParentForCreate db ns.id pp with e | ⟨parentId, ppath⟩
  · exact inv
  dsimp only
  rcases hct : dbCreateTag db ns.id nm d (buildTagPath ppath nm) parentId
      (some (ensureColor c nm)) with e | ⟨tag, db1⟩
  · exact inv
  dsimp only
  obtain ⟨hnodup, htag, htags, hnext⟩ := dbCreateTag_ok_spec hct
  have hname : tagNameRegexMatch nm = true := by
    rcases u with ⟨⟩
    exact validateTagInput_ok_name hv
  have hparent :
      (parentId = none ∧ buildTagPath ppath nm = "/" ++ nm) ∨
      ∃ pt ∈ db.tags, parentId = some pt.id ∧
        buildTagPath ppath nm = pt.path ++ "/" ++ nm := by
    rcases resolveParentForCreate_ok hpr with ⟨hpid, hpp⟩ | ⟨pt, hpt, hpid, hpp⟩
    · subst hpp
      exact Or.inl ⟨hpid, rfl⟩
    · subst hpp
      exact Or.inr ⟨pt, hpt, hpid, buildTagPath_parent inv hpt nm⟩
  have hbase : SInv db1.tags db1.nextId := by
    rw [htags, hnext, htag]
    exact sinv_insert inv hname hnodup hparent
  rcases js with - | s
  · exact hbase
  dsimp only
  split
  · rcases hcs : dbCreateSchema db1 (some tag.id) s with e | ⟨r, db2⟩
    · exact hbase
    dsimp only
    obtain ⟨h2tags, -, -, -, -⟩ := dbCreateSchema_ok_spec hcs
    have h2next : db2.nextId = db1.nextId := by
      unfold dbCreateSchema at hcs
      simp only [Except.ok.injEq, Prod.mk.injEq] at hcs
      rw [← hcs.2]
    have : SInv db2.tags db2.nextId := by
      rw [h2tags, h2next]; exact hbase
    exact this
  · exact hbase

/-- `deleteTag` preserves the strong invariant. -/
theorem sinv_deleteTag {db : DB} (inv : SInv db.tags db.nextId)
    (n p : String) :
    SInv ((deleteTag db n p).2).tags ((deleteTag db n p).2).nextId := by
  unfold deleteTag
  rcases hns : getNamespaceByName db n with - | ns
  · exact inv
  dsimp only
  rcases htag : getTagByPath db ns.id p with - | tag
  · exact inv
  dsimp only
  exact sinv_dbDeleteTag inv tag.id

/-- Whether an operation is an `updateTag` call. -/
def TagOp.isUpdate : TagOp → Bool
  | .update _ _ _ _ _ _ _ => true
  | _ => false

/-- Running any sequence of create and delete calls preserves the strong
invariant. -/
theorem sinv_runTagOps (sc : String → Except TagErr Unit) (ops : List TagOp)
    (db : DB) (inv : SInv db.tags db.nextId)
    (hops : ∀ op ∈ ops, op.isUpdate = false) :
    SInv ((runTagOps sc db ops)).tags (runTagOps sc db ops).nextId := by
  induction ops generalizing db with
  | nil => exact inv
  | cons op ops ih =>
    have hop := hops op (List.mem_cons_self op ops)
    have hrest : ∀ o ∈ ops, o.isUpdate = false :=
      fun o ho => hops o (List.mem_cons_of_mem _ ho)
    show SInv ((runTagOps sc (applyTagOp sc db op) ops)).tags _
    cases op with
    | create n nm d pp c js => exact ih _ (sinv_createTag sc inv n nm d pp c js) hrest
    | update _ _ _ _ _ _ _ => exact absurd hop (by simp [TagOp.isUpdate])
    | delete n p => exact ih _ (sinv_deleteTag inv n p) hrest

/-- The strong invariant implies the claimed invariant. -/
theorem sinv_tagInv {tags : List Tag} {nextId : Nat}
    (inv : SInv tags nextId) : TagInv tags := by
  refine ⟨?_, inv.acyc, ?_⟩
  · rw [pathFormulaOk, List.all_eq_true]
    intro t ht
    unfold parentLinkB
    rcases hp : t.parentId with - | p
    · simpa using inv.root t ht hp
    · obtain ⟨pt, hpt, hid, hpath⟩ := inv.link t ht p hp
      rw [List.any_eq_true]
      exact ⟨pt, hpt, by simp [hid, hpath]⟩
  · rw [pathsUniquePerNamespace, List.all_eq_true]
    intro t ht
    rw [List.all_eq_true]
    intro u hu
    by_cases hc : t.namespaceId = u.namespaceId ∧ t.path = u.path
    · obtain ⟨A, hA⟩ := inv.path_shape ht
      obtain ⟨B, hB⟩ := inv.path_shape hu
      obtain ⟨-, htn⟩ := tagName_no_slash (inv.names t ht)
      obtain ⟨-, hun⟩ := tagName_no_slash (inv.names u hu)
      have hdata : A ++ '/' :: t.name.data = B ++ '/' :: u.name.data := by
        rw [← hA, ← hB, hc.2]
      have hnames : t.name = u.name :=
        String.ext (suffix_slash_cancel htn hun hdata)
      have := inv.nameUniq t ht u hu hc.1 hnames
      simp [this]
    · have : (t.namespaceId == u.namespaceId && t.path == u.path) = false := by
        rcases Decidable.not_and_iff_or_not.mp hc with hn | hn <;> simp [hn]
      simp [this]

/-- The initial namespace-only state satisfies the strong invariant. -/
theorem sinv_initDB (nsName : String) :
    SInv (initDB nsName).tags (initDB nsName).nextId := by
  refine ⟨by simp [initDB], ?_, ?_, ?_, ?_, ?_, ?_⟩
  · intro t ht; exact absurd ht (List.not_mem_nil t)
  · intro t ht; exact absurd ht (List.not_mem_nil t)
  · intro t ht; exact absurd ht (List.not_mem_nil t)
  · intro t ht; exact absurd ht (List.not_mem_nil t)
  · intro t ht; exact absurd ht (List.not_mem_nil t)
  · intro i h
    obtain ⟨u, hu, -⟩ := h.source
    exact absurd hu (List.not_mem_nil u)

/-- C2 (amended): for every state reachable from a namespace-only initial
state by `createTag` and `deleteTag` calls — no `updateTag` — every tag's
stored path equals its parent's stored path plus `/` plus its own name (or
`/` plus its name at root), no tag is its own ancestor, and paths are unique
within a namespace.  `updateTag` breaks the path formula (and with it the
acyclicity check's soundness) because it rewrites only the moved tag's own
path; see the counterexample. -/
theorem c2_tag_invariants_without_update (sc : String → Except TagErr Unit)
    (nsName : String) (ops : List TagOp)
    (hops : ∀ op ∈ ops, op.isUpdate = false) :
    TagInv (runTagOps sc (initDB nsName) ops).tags :=
  sinv_tagInv (sinv_runTagOps sc ops _ (sinv_initDB nsName) hops)

/-- C2 witness: the create–create–delete sequence `/a`, `/a/b`,
`delete /a` contains no update and its final state satisfies the invariant. -/
theorem c2_tag_invariants_without_update_witness :
    (∀ op ∈ ([.create "ns" "a" none none (some "#112233") none,
              .create "ns" "b" none (some "/a") (some "#112233") none,
              .delete "ns" "/a"] : List TagOp), op.isUpdate = false) ∧
    TagInv (runTagOps scOk (initDB "ns")
      [.create "ns" "a" none none (some "#112233") none,
       .create "ns" "b" none (some "/a") (some "#112233") none,
       .delete "ns" "/a"]).tags :=
  ⟨by decide, c2_tag_invariants_without_update scOk "ns" _ (by decide)⟩

/-! ## Provenance-map lemmas (for C7 and C8) -/

/-- Replacing the entry of `k` makes `k` look up the new value (when an
entry for `k` exists). -/
theorem find?_replace_same {m : List (String × AttributeExtractionInfo)}
    {k : String} {v : AttributeExtractionInfo}
    (hany : m.any (fun kv => kv.1 == k) = true) :
    (m.map (fun kv => if kv.1 == k then (k, v) else kv)).find?
      (fun kv => kv.1 == k) = some (k, v) := by
  induction m with
  | nil => simp at hany
  | cons kv m ih =>
    by_cases hk : kv.1 = k
    · simp [List.map_cons, List.find?_cons, hk, -List.find?_map]
    · have hany' : m.any (fun kv => kv.1 == k) = true := by
        simpa [hk] using hany
      have ih' := ih hany'
      simp only [beq_iff_eq] at ih'
      simpa [List.map_cons, List.find?_cons, hk, -List.find?_map] using ih'

/-- Replacing the entry of `k` leaves other keys' lookups unchanged. -/
theorem find?_replace_ne {m : List (String × AttributeExtractionInfo)}
    {k k' : String} {v : AttributeExtractionInfo} (hne : k' ≠ k) :
    (m.map (fun kv => if kv.1 == k then (k, v) else kv)).find?
        (fun kv => kv.1 == k')
      = m.find? (fun kv => kv.1 == k') := by
  induction m with
  | nil => rfl
  | cons kv m ih =>
    have ih' := ih
    simp only [beq_iff_eq] at ih'
    by_cases hk : kv.1 = k
    · have h1 : (k == k') = false := by
        simp [Ne.symm hne]
      have h2 : (kv.1 == k') = false := by
        simp [hk, Ne.symm hne]
      simpa [List.map_cons, List.find?_cons, hk, h1, h2, -List.find?_map]
        using ih'
    · by_cases hk' : kv.1 = k'
      · simp [List.map_cons, List.find?_cons, hk, hk', hne, -List.find?_map]
      · simpa [List.map_cons, List.find?_cons, hk, hk', -List.find?_map]
          using ih'

/-- `setField` makes the touched key look up the new record. -/
theorem lookupAssoc_setField_same
    (m : List (String × AttributeExtractionInfo)) (k : String)
    (v : AttributeExtractionInfo) :
    lookupAssoc (setField m k v) k = some v := by
  unfold setField lookupAssoc
  split
  · next hany => rw [find?_replace_same hany]; rfl
  · next hany =>
    have hnone : m.find? (fun kv => kv.1 == k) = none := by
      rw [List.find?_eq_none]
      intro kv hkv
      have := List.any_eq_false.mp (Bool.of_not_eq_true hany) kv hkv
      simpa using this
    rw [List.find?_append, hnone]
    simp [List.find?_cons]

/-- `setField` leaves every other key's lookup unchanged. -/
theorem lookupAssoc_setField_ne
    (m : List (String × AttributeExtractionInfo)) (k k' : String)
    (v : AttributeExtractionInfo) (hne : k' ≠ k) :
    lookupAssoc (setField m k v) k' = lookupAssoc m k' := by
  unfold setField lookupAssoc
  split
  · rw [find?_replace_ne hne]
  · rw [List.find?_append]
    have : ([(k, v)].find? (fun kv => kv.1 == k')) = none := by
      simp [List.find?_cons, Ne.symm hne]
    rw [this]
    cases m.find? (fun kv => kv.1 == k') <;> rfl

/-- Folding `setField` over a field list: untouched keys keep their records,
touched keys get the fresh record. -/
theorem lookupAssoc_fold (fields : List String)
    (v : AttributeExtractionInfo) :
    ∀ m : List (String × AttributeExtractionInfo),
    (∀ f, f ∉ fields →
      lookupAssoc (fields.foldl (fun acc g => setField acc g v) m) f
        = lookupAssoc m f) ∧
    (∀ f ∈ fields,
      lookupAssoc (fields.foldl (fun acc g => setField acc g v) m) f
        = some v) := by
  induction fields with
  | nil =>
    exact fun m => ⟨fun f _ => rfl, fun f hf => absurd hf (List.not_mem_nil f)⟩
  | cons g gs ih =>
    intro m
    constructor
    · intro f hf
      have hne : f ≠ g := fun he => hf (he ▸ List.mem_cons_self g gs)
      have hnin : f ∉ gs := fun hm => hf (List.mem_cons_of_mem _ hm)
      show lookupAssoc (gs.foldl (fun acc g => setField acc g v)
        (setField m g v)) f = lookupAssoc m f
      rw [(ih (setField m g v)).1 f hnin, lookupAssoc_setField_ne m g f v hne]
    · intro f hf
      by_cases hgs : f ∈ gs
      · exact (ih (setField m g v)).2 f hgs
      · have hfg : f = g := by
          rcases List.mem_cons.mp hf with h | h
          · exact h
          · exact absurd h hgs
        show lookupAssoc (gs.foldl (fun acc g => setField acc g v)
          (setField m g v)) f = some v
        rw [(ih (setField m g v)).1 f hgs, hfg,
          lookupAssoc_setField_same m g v]

/-- An update that rewrites exactly the rows matching `p`, staying within
`p`, keeps the number of matching rows. -/
theorem filter_map_update_length {l : List DocTag} {p : DocTag → Bool}
    {g : DocTag → DocTag} (hg : ∀ dt, p dt = true → p (g dt) = true) :
    ((l.map (fun dt => if p dt then g dt else dt)).filter p).length
      = (l.filter p).length := by
  induction l with
  | nil => rfl
  | cons dt l ih =>
    by_cases hp : p dt = true
    · simp [List.filter_cons, List.map_cons, hp, hg dt hp, ih]
    · have hp' : p dt = false := Bool.of_not_eq_true hp
      simp [List.filter_cons, List.map_cons, hp', ih]

/-- A successful association upsert (`AddDocumentTag`): it succeeds whenever
the document exists, leaves exactly one matching association row, that row
carries the upserted payload, and no other table changes. -/
theorem dbAddDocumentTag_ok {db : DB} {docId tagId : Nat}
    {attrs : Option Json} {meta : DocumentTagMetadata}
    (hdoc : db.documents.any (fun d => d.id == docId) = true)
    (hone : (db.docTags.filter (fun dt =>
        dt.documentId == docId && dt.tagId == tagId)).length ≤ 1) :
    ∃ db1, dbAddDocumentTag db docId tagId attrs meta = .ok db1 ∧
      (db1.docTags.filter (fun dt =>
        dt.documentId == docId && dt.tagId == tagId)).length = 1 ∧
      (∀ dt ∈ db1.docTags, dt.documentId = docId → dt.tagId = tagId →
        dt.attributes = attrs ∧ dt.attributesMetadata = meta) ∧
      db1.documents = db.documents ∧ db1.tags = db.tags ∧
      db1.schemas = db.schemas ∧ db1.namespaces = db.namespaces := by
  unfold dbAddDocumentTag
  rw [if_pos hdoc]
  rcases hup : db.docTags.any
      (fun dt => dt.documentId == docId && dt.tagId == tagId) with - | -
  · rw [if_neg (by simp)]
    refine ⟨_, rfl, ?_, ?_, rfl, rfl, rfl, rfl⟩
    · have hfil : db.docTags.filter (fun dt =>
          dt.documentId == docId && dt.tagId == tagId) = [] := by
        rw [List.filter_eq_nil_iff]
        intro dt hdt
        simp [List.any_eq_false.mp hup dt hdt]
      rw [List.filter_append, hfil]
      simp [List.filter_cons]
    · intro dt hdt h1 h2
      rcases List.mem_append.mp hdt with hm | hm
      · have := List.any_eq_false.mp hup dt hm
        simp [h1, h2] at this
      · simp only [List.mem_singleton] at hm
        subst hm
        exact ⟨rfl, rfl⟩
  · rw [if_pos rfl]
    refine ⟨_, rfl, ?_, ?_, rfl, rfl, rfl, rfl⟩
    · rw [filter_map_update_length (by intro dt hp; simpa using hp)]
      have hpos : 0 < (db.docTags.filter (fun dt =>
          dt.documentId == docId && dt.tagId == tagId)).length := by
        obtain ⟨dt, hdt, hp⟩ := List.any_eq_true.mp hup
        exact List.length_pos.mpr
          (List.ne_nil_of_mem (List.mem_filter.mpr ⟨hdt, hp⟩))
      omega
    · intro dt hdt h1 h2
      obtain ⟨dt0, hdt0, heq⟩ := List.mem_map.mp hdt
      by_cases hp : (dt0.documentId == docId && dt0.tagId == tagId) = true
      · rw [if_pos hp] at heq
        rw [← heq]
        exact ⟨rfl, rfl⟩
      · rw [if_neg hp] at heq
        subst heq
        simp [h1, h2] at hp

/-! ## C7: idempotence of attaching a tag -/

/-- C7: attaching the same tag to the same document twice with identical
arguments succeeds both times (the upsert never reports an already-exists
error), leaves exactly one association row for the pair, and that row's
attributes are the latest call's payload. -/
theorem c7_attachTag_idempotent (attrValid : String → Json → Bool) (db : DB)
    (nsName tagPath : String) (documentId : Nat) (kvs : JsonObj)
    (method actor : String) (ns : Namespace) (tag : Tag)
    (hns : getNamespaceByName db nsName = some ns)
    (htag : getTagByPath db ns.id tagPath = some tag)
    (hdoc : db.documents.any (fun d => d.id == documentId) = true)
    (hvalid : validateAttributes attrValid db tag.id (.obj kvs) = true)
    (hone : (db.docTags.filter (fun dt =>
        dt.documentId == documentId && dt.tagId == tag.id)).length ≤ 1) :
    ∃ db1 db2,
      addTagToDocument attrValid db nsName documentId tagPath
        (some (.obj kvs)) method actor = (.ok (), db1) ∧
      addTagToDocument attrValid db1 nsName documentId tagPath
        (some (.obj kvs)) method actor = (.ok (), db2) ∧
      (db2.docTags.filter (fun dt =>
        dt.documentId == documentId && dt.tagId == tag.id)).length = 1 ∧
      ∀ dt ∈ db2.docTags, dt.documentId = documentId → dt.tagId = tag.id →
        dt.attributes = some (.obj kvs) := by
  obtain ⟨dbA, haddA, hlenA, -, hdocsA, htagsA, hschA, hnsA⟩ :=
    @dbAddDocumentTag_ok db documentId tag.id (some (.obj kvs))
      (createAttributeMetadata kvs.keys method actor db.now) hdoc hone
  have h1 : addTagToDocument attrValid db nsName documentId tagPath
      (some (.obj kvs)) method actor
      = (.ok (), publishTagExtracted dbA documentId nsName tagPath) := by
    unfold addTagToDocument
    rw [hns]
    dsimp only
    rw [htag]
    dsimp only
    rw [hvalid]
    rw [if_neg (by simp)]
    rw [haddA]
  have hns2 : getNamespaceByName
      (publishTagExtracted dbA documentId nsName tagPath) nsName = some ns := by
    unfold getNamespaceByName
    rw [show (publishTagExtracted dbA documentId nsName tagPath).namespaces
      = db.namespaces from hnsA]
    exact hns
  have htag2 : getTagByPath
      (publishTagExtracted dbA documentId nsName tagPath) ns.id tagPath
      = some tag := by
    unfold getTagByPath
    rw [show (publishTagExtracted dbA documentId nsName tagPath).tags
      = db.tags from htagsA]
    exact htag
  have hdoc2 : (publishTagExtracted dbA documentId nsName
      tagPath).documents.any (fun d => d.id == documentId) = true := by
    rw [show (publishTagExtracted dbA documentId nsName tagPath).documents
      = db.documents from hdocsA]
    exact hdoc
  have hvalid2 : validateAttributes attrValid
      (publishTagExtracted dbA documentId nsName tagPath) tag.id
      (.obj kvs) = true := by
    unfold validateAttributes getLatestSchemaByTagId at hvalid ⊢
    rw [show (publishTagExtracted dbA documentId nsName tagPath).schemas
      = db.schemas from hschA]
    exact hvalid
  have hone2 : ((publishTagExtracted dbA documentId nsName
      tagPath).docTags.filter (fun dt =>
        dt.documentId == documentId && dt.tagId == tag.id)).length ≤ 1 :=
    le_of_eq hlenA
  obtain ⟨dbB, haddB, hlenB, hattrB, -, -, -, -⟩ :=
    @dbAddDocumentTag_ok (publishTagExtracted dbA documentId nsName tagPath)
      documentId tag.id (some (.obj kvs))
      (createAttributeMetadata kvs.keys method actor
        (publishTagExtracted dbA documentId nsName tagPath).now)
      hdoc2 hone2
  have h2 : addTagToDocument attrValid
      (publishTagExtracted dbA documentId nsName tagPath) nsName documentId
      tagPath (some (.obj kvs)) method actor
      = (.ok (), publishTagExtracted dbB documentId nsName tagPath) := by
    unfold addTagToDocument
    rw [hns2]
    dsimp only
    rw [htag2]
    dsimp only
    rw [hvalid2]
    rw [if_neg (by simp)]
    rw [haddB]
  refine ⟨_, _, h1, h2, hlenB, ?_⟩
  intro dt hdt h1' h2'
  exact (hattrB dt hdt h1' h2').1

/-- A state with one namespace, one tag `/t` and one document (id 5),
no schemas and no associations. -/
def c7DB : DB :=
  ⟨[⟨0, "ns"⟩],
   [⟨1, 0, "t", none, "/t", none, some "#AABBCC", 0⟩],
   [], [⟨5, 0, none, emptyDTMetadata, 0⟩], [], [], 2, 3⟩

/-- C7 witness: attaching `/t` to document 5 twice with the same payload
instantiates the idempotence theorem. -/
theorem c7_attachTag_idempotent_witness :
    ∃ db1 db2,
      addTagToDocument (fun _ _ => true) c7DB "ns" 5 "/t"
        (some (.obj (.cons "amount" (.num 100) .nil))) "manual" "alice"
        = (.ok (), db1) ∧
      addTagToDocument (fun _ _ => true) db1 "ns" 5 "/t"
        (some (.obj (.cons "amount" (.num 100) .nil))) "manual" "alice"
        = (.ok (), db2) ∧
      (db2.docTags.filter (fun dt =>
        dt.documentId == 5 && dt.tagId == 1)).length = 1 ∧
      ∀ dt ∈ db2.docTags, dt.documentId = 5 → dt.tagId = 1 →
        dt.attributes = some (.obj (.cons "amount" (.num 100) .nil)) :=
  c7_attachTag_idempotent (fun _ _ => true) c7DB "ns" "/t" 5
    (.cons "amount" (.num 100) .nil) "manual" "alice"
    ⟨0, "ns"⟩ ⟨1, 0, "t", none, "/t", none, some "#AABBCC", 0⟩
    rfl rfl rfl rfl (by simp [c7DB])

/-! ## C8: provenance merge on attribute updates -/

/-- C8 (amended, tag-scoped): a successful tag-scoped `updateAttributes`
merges provenance — fields absent from the payload keep their stored
records, fields present get fresh `manual`/`api-user` records. -/
theorem c8_updateAttributes_tag_scoped_merge (attrValid : String → Json → Bool)
    (db : DB) (nsName tagPath : String) (documentId : Nat) (kvs : JsonObj)
    (ns : Namespace) (tag : Tag) (cur : DocTag)
    (hns : getNamespaceByName db nsName = some ns)
    (hpath : (tagPath == "") = false)
    (htag : getTagByPath db ns.id tagPath = some tag)
    (hvalid : validateAttributes attrValid db tag.id (.obj kvs) = true)
    (hcur : getDocumentTagAttributes db documentId tag.id = some cur) :
    ∃ db', updateDocumentAttributes attrValid db nsName documentId tagPath
        (.obj kvs) = (.ok (), db') ∧
      ∀ dt ∈ db'.docTags, dt.documentId = documentId → dt.tagId = tag.id →
        (∀ f, f ∉ kvs.keys →
          lookupField dt.attributesMetadata f
            = lookupField cur.attributesMetadata f) ∧
        (∀ f ∈ kvs.keys, lookupField dt.attributesMetadata f
            = some (freshInfo "manual" "api-user" db.now)) := by
  have hmain : updateDocumentAttributes attrValid db nsName documentId tagPath
      (.obj kvs)
      = (.ok (), dbUpdateDocumentTagAttributes db documentId tag.id
          (some (.obj kvs))
          (updateAttrExtractionInfo cur.attributesMetadata kvs.keys "manual"
            "api-user" db.now)) := by
    unfold updateDocumentAttributes
    rw [hns]
    dsimp only
    rw [hpath, if_neg (by simp)]
    rw [htag]
    dsimp only
    rw [hvalid, if_neg (by simp)]
    rw [hcur]
  refine ⟨_, hmain, ?_⟩
  intro dt hdt h1 h2
  obtain ⟨dt0, hdt0, heq⟩ := List.mem_map.mp hdt
  by_cases hp : (dt0.documentId == documentId && dt0.tagId == tag.id) = true
  · rw [if_pos hp] at heq
    rw [← heq]
    exact ⟨(lookupAssoc_fold kvs.keys (freshInfo "manual" "api-user" db.now)
        cur.attributesMetadata.attributes).1,
      (lookupAssoc_fold kvs.keys (freshInfo "manual" "api-user" db.now)
        cur.attributesMetadata.attributes).2⟩
  · rw [if_neg hp] at heq
    subst heq
    simp [h1, h2] at hp

/-- A stored provenance record used by the C8 scenarios. -/
def c8Info : AttributeExtractionInfo := ⟨"manual", "alice", 1, "manual", none⟩

/-- A state whose document 5 carries provenance for field `a`. -/
def c8DB : DB :=
  ⟨[⟨0, "ns"⟩], [], [], [⟨5, 0, none, ⟨c8Info, [("a", c8Info)]⟩, 0⟩],
   [], [], 1, 9⟩

/-- C8 counterexample: a successful global (no tag path) `updateAttributes`
call with payload `{"b": 1}` on a document whose metadata holds provenance
for field `a` discards that record (the global branch builds fresh metadata
with `createAttributeMetadata` instead of merging), although `a` is not in
the payload. -/
theorem c8_global_discards_counterexample :
    ∃ db', updateDocumentAttributes (fun _ _ => true) c8DB "ns" 5 ""
        (.obj (.cons "b" (.num 1) .nil)) = (.ok (), db') ∧
      lookupField (⟨c8Info, [("a", c8Info)]⟩ : DocumentTagMetadata) "a"
        = some c8Info ∧
      db'.documents.all
        (fun d => lookupField d.attributesMetadata "a" == none) = true :=
  ⟨_, rfl, rfl, rfl⟩

/-- A state whose document 5 is associated to tag `/t` with provenance for
field `a` on the association. -/
def c8TagDB : DB :=
  ⟨[⟨0, "ns"⟩],
   [⟨1, 0, "t", none, "/t", none, some "#AABBCC", 0⟩],
   [], [⟨5, 0, none, emptyDTMetadata, 0⟩],
   [⟨5, 1, none, ⟨c8Info, [("a", c8Info)]⟩, 0⟩], [], 2, 9⟩

/-- C8 witness: updating the `/t` association of document 5 with payload
`{"b": 1}` keeps the stored provenance of field `a` and stamps a fresh
record for `b`. -/
theorem c8_updateAttributes_tag_scoped_merge_witness :
    ∃ db', updateDocumentAttributes (fun _ _ => true) c8TagDB "ns" 5 "/t"
        (.obj (.cons "b" (.num 1) .nil)) = (.ok (), db') ∧
      ∀ dt ∈ db'.docTags, dt.documentId = 5 → dt.tagId = 1 →
        (∀ f, f ∉ (JsonObj.cons "b" (.num 1) .nil).keys →
          lookupField dt.attributesMetadata f
            = lookupField (⟨c8Info, [("a", c8Info)]⟩ : DocumentTagMetadata) f) ∧
        (∀ f ∈ (JsonObj.cons "b" (.num 1) .nil).keys,
          lookupField dt.attributesMetadata f
            = some (freshInfo "manual" "api-user" 9)) :=
  c8_updateAttributes_tag_scoped_merge (fun _ _ => true) c8TagDB "ns" "/t" 5
    (.cons "b" (.num 1) .nil) ⟨0, "ns"⟩
    ⟨1, 0, "t", none, "/t", none, some "#AABBCC", 0⟩
    ⟨5, 1, none, ⟨c8Info, [("a", c8Info)]⟩, 0⟩
    rfl rfl rfl rfl rfl

/-- A reachable state that violates the invariant: create `/a`, create its
child `/a/b`, then rename `/a` to `c` through `updateTag`. -/
def c2DB : DB :=
  runTagOps scOk (initDB "ns")
    [.create "ns" "a" none none (some "#112233") none,
     .create "ns" "b" none (some "/a") (some "#112233") none,
     .update "ns" "/a" (some "c") none none none none]

/-- C2 counterexample: the state reached by the three calls above violates
the path formula — the child keeps stored path `/a/b` while its parent's
stored path has become `/c` (`updateTag` rewrites only the moved tag's own
path). -/
theorem c2_invariant_counterexample : ¬ TagInv c2DB.tags := by
  intro h
  have hfalse : pathFormulaOk c2DB.tags = false := rfl
  exact Bool.false_ne_true (hfalse.symm.trans h.1)

/-! ## C5: schema-store versioning -/

/-- C5: the claim covers the null global schema key, but the code cannot
serve it: `PRIMARY KEY (tag_id, version)` makes `tag_id` NOT NULL in
PostgreSQL, so the very first write under the null key is rejected instead
of receiving version 1 (and the versioning trigger's `tag_id = NEW.tag_id`
comparison matches no row for a NULL key anyway).  A first write under a tag
key does receive version 1, as the claim says. -/
theorem c5_schema_null_key_code_bug :
    dbCreateSchema (initDB "ns") none "{}" = .error .notNullViolation ∧
    (dbCreateSchema (initDB "ns") (some 7) "{}").map (fun p => p.1.version)
      = .ok 1 :=
  ⟨rfl, rfl⟩

/-! ## C3: a successful update rewrites only the addressed tag row -/

/-- C3: after every successful `updateTag` the tag table is the pointwise
replacement of the updated tag's own row; every other tag's record — in
particular every descendant's stored path — is exactly as before. -/
theorem c3_updateTag_frame (schemaCheck : String → Except TagErr Unit)
    (db : DB) (nsName tagPath : String)
    (newName description parentPath color jsonSchema : Option String)
    (res : TagWithSchema) (db' : DB)
    (h : updateTag schemaCheck db nsName tagPath newName description parentPath
        color jsonSchema = (.ok res, db')) :
    db'.tags = db.tags.map (fun t => if t.id == res.tag.id then res.tag else t) ∧
    (∀ u ∈ db.tags, u.id ≠ res.tag.id → u ∈ db'.tags) := by
  unfold updateTag at h
  rcases hns : getNamespaceByName db nsName with - | ns
  · rw [hns] at h; exact absurd h (by simp)
  rw [hns] at h
  dsimp only at h
  rcases htag : getTagByPath db ns.id tagPath with - | tag
  · rw [htag] at h; exact absurd h (by simp)
  rw [htag] at h
  dsimp only at h
  rcases hval : validateTagInput schemaCheck (resolveUpdateName tag newName)
      parentPath color jsonSchema with e | u
  · rw [hval] at h; exact absurd h (by simp)
  rw [hval] at h
  dsimp only at h
  rcases hpr : resolveParentForUpdate db ns.id tag parentPath with e | ⟨parentId, rpp⟩
  · rw [hpr] at h; exact absurd h (by simp)
  rw [hpr] at h
  dsimp only at h
  rcases hud : dbUpdateTag db tag.id (resolveUpdateName tag newName) description
      (buildTagPath rpp (resolveUpdateName tag newName)) parentId
      (resolveUpdateColor tag color (resolveUpdateName tag newName))
    with e | ⟨tag', db1⟩
  · rw [hud] at h; cases e <;> exact absurd h (by simp)
  rw [hud] at h
  dsimp only at h
  obtain ⟨hid, htags, -, -, -, -, -⟩ := dbUpdateTag_ok_spec hud
  have hmain : res.tag = tag' ∧ db'.tags = db1.tags := by
    rcases jsonSchema with - | js
    · simp only [Prod.mk.injEq, Except.ok.injEq] at h
      obtain ⟨h1, h2⟩ := h
      subst h2; subst h1
      exact ⟨rfl, rfl⟩
    · dsimp only at h
      rcases hjs : js != "" with - | -
      · rw [hjs] at h
        simp only [Bool.false_eq_true, if_false, Prod.mk.injEq,
          Except.ok.injEq] at h
        obtain ⟨h1, h2⟩ := h
        subst h2; subst h1
        exact ⟨rfl, rfl⟩
      · rw [hjs] at h
        simp only [if_true] at h
        split at h
        · rcases hcs : dbCreateSchema db1 (some tag'.id) js with e | ⟨r, db2⟩
          · rw [hcs] at h; exact absurd h (by simp)
          rw [hcs] at h
          obtain ⟨h2tags, -, -, -, -⟩ := dbCreateSchema_ok_spec hcs
          simp only [Prod.mk.injEq, Except.ok.injEq] at h
          obtain ⟨h1, h2⟩ := h
          subst h2; subst h1
          simpa [publishSchemaChanged] using h2tags
        · simp only [Prod.mk.injEq, Except.ok.injEq] at h
          obtain ⟨h1, h2⟩ := h
          subst h2; subst h1
          exact ⟨rfl, rfl⟩
  obtain ⟨hres, hdb'⟩ := hmain
  have hmap : db'.tags =
      db.tags.map (fun t => if t.id == res.tag.id then res.tag else t) := by
    rw [hdb', htags, hres, hid]
  refine ⟨hmap, ?_⟩
  intro u hu hne
  rw [hmap]
  have : (if u.id == res.tag.id then res.tag else u) ∈
      db.tags.map (fun t => if t.id == res.tag.id then res.tag else t) :=
    List.mem_map_of_mem _ hu
  simpa [hne] using this

/-- A state with a root tag `/a` and its child `/a/b` in one namespace. -/
def c3DB : DB :=
  ⟨[⟨0, "ns"⟩],
   [⟨1, 0, "a", none, "/a", none, some "#AABBCC", 0⟩,
    ⟨2, 0, "b", none, "/a/b", some 1, some "#AABBCC", 0⟩],
   [], [], [], [], 3, 5⟩

/-- C3 witness: renaming `/a` to `/c` while it has the child `/a/b`
instantiates the frame theorem; the child row (and its stored path) is
untouched. -/
theorem c3_updateTag_frame_witness :
    ∃ res db',
      updateTag scOk c3DB "ns" "/a" (some "c") none none none none
        = (.ok res, db') ∧
      db'.tags = c3DB.tags.map
        (fun t => if t.id == res.tag.id then res.tag else t) ∧
      (∀ u ∈ c3DB.tags, u.id ≠ res.tag.id → u ∈ db'.tags) :=
  ⟨_, _, rfl,
   c3_updateTag_frame scOk c3DB "ns" "/a" (some "c") none none none none _ _ rfl⟩

/-! ## C4: cycle prevention on re-parenting -/

/-- C4: whenever the explicit new parent of an `updateTag` call resolves to
the tag itself, to a tag with the tag's own path, or to a tag whose path
lies inside the tag's current subtree, the call fails with
`InvalidParentReference` and the state is returned unchanged. -/
theorem c4_updateTag_invalid_parent (schemaCheck : String → Except TagErr Unit)
    (db : DB) (nsName tagPath pp : String)
    (newName description color jsonSchema : Option String)
    (ns : Namespace) (tag parent : Tag)
    (hns : getNamespaceByName db nsName = some ns)
    (htag : getTagByPath db ns.id tagPath = some tag)
    (hval : validateTagInput schemaCheck (resolveUpdateName tag newName)
        (some pp) color jsonSchema = .ok ())
    (hpp : pp ≠ "")
    (hparent : getTagByPath db ns.id pp = some parent)
    (hbad : parent.id = tag.id ∨ parent.path = tag.path ∨
      strStartsWith parent.path (tag.path ++ "/") = true) :
    updateTag schemaCheck db nsName tagPath newName description (some pp) color
      jsonSchema = (.error .invalidParentReference, db) := by
  have hcond : (parent.id == tag.id || parent.path == tag.path ||
      strStartsWith parent.path (tag.path ++ "/")) = true := by
    rcases hbad with hb | hb | hb <;> simp [hb]
  have hres : resolveParentForUpdate db ns.id tag (some pp)
      = .error .invalidParentReference := by
    unfold resolveParentForUpdate
    dsimp only
    rw [if_neg (by simpa using hpp), hparent]
    dsimp only
    rw [if_pos hcond]
  unfold updateTag
  rw [hns]
  dsimp only
  rw [htag]
  dsimp only
  rw [hval]
  dsimp only
  rw [hres]

/-- C4 witness: with root tag `A = /a` and child `B = /a/b`,
`updateTag(A, newParent = /a/b)` fails with `InvalidParentReference` and
leaves the state unchanged. -/
theorem c4_updateTag_invalid_parent_witness :
    updateTag scOk c3DB "ns" "/a" none none (some "/a/b") none none
      = (.error .invalidParentReference, c3DB) :=
  c4_updateTag_invalid_parent scOk c3DB "ns" "/a" "/a/b" none none none none
    ⟨0, "ns"⟩ ⟨1, 0, "a", none, "/a", none, some "#AABBCC", 0⟩
    ⟨2, 0, "b", none, "/a/b", some 1, some "#AABBCC", 0⟩
    rfl rfl rfl (by decide) rfl (Or.inr (Or.inr (by decide)))

/-! ## C10: resubmitting the identical schema string is a no-op -/

/-- C10: when the latest stored schema document for the tag equals the
submitted `jsonSchema` string byte for byte, a successful `updateTag` leaves
the schema store untouched, publishes no event, and returns the stored
latest schema. -/
theorem c10_updateTag_same_schema_noop
    (schemaCheck : String → Except TagErr Unit) (db : DB)
    (nsName tagPath : String)
    (newName description parentPath color : Option String) (js : String)
    (ns : Namespace) (tag : Tag) (oldRec : SchemaRecord)
    (res : TagWithSchema) (db' : DB)
    (hns : getNamespaceByName db nsName = some ns)
    (htag : getTagByPath db ns.id tagPath = some tag)
    (hsch : getLatestSchemaByTagId db tag.id = some oldRec)
    (hjs : oldRec.jsonSchema = js)
    (h : updateTag schemaCheck db nsName tagPath newName description parentPath
        color (some js) = (.ok res, db')) :
    db'.schemas = db.schemas ∧ db'.events = db.events ∧
      res.schema = some oldRec := by
  unfold updateTag at h
  rw [hns] at h
  dsimp only at h
  rw [htag] at h
  dsimp only at h
  rcases hval : validateTagInput schemaCheck (resolveUpdateName tag newName)
      parentPath color (some js) with e | u
  · rw [hval] at h; exact absurd h (by simp)
  rw [hval] at h
  dsimp only at h
  rcases hpr : resolveParentForUpdate db ns.id tag parentPath with e | ⟨parentId, rpp⟩
  · rw [hpr] at h; exact absurd h (by simp)
  rw [hpr] at h
  dsimp only at h
  rcases hud : dbUpdateTag db tag.id (resolveUpdateName tag newName) description
      (buildTagPath rpp (resolveUpdateName tag newName)) parentId
      (resolveUpdateColor tag color (resolveUpdateName tag newName))
    with e | ⟨tag', db1⟩
  · rw [hud] at h; cases e <;> exact absurd h (by simp)
  rw [hud] at h
  dsimp only at h
  obtain ⟨-, -, -, h1schemas, -, -, h1events⟩ := dbUpdateTag_ok_spec hud
  rw [hsch] at h
  dsimp only at h
  rw [hjs] at h
  simp only [bne_self_eq_false, Option.isNone_some, Bool.or_false,
    Bool.false_eq_true, if_false] at h
  rcases hjsb : js != "" with - | -
  · rw [hjsb] at h
    simp only [Bool.false_eq_true, if_false, Prod.mk.injEq, Except.ok.injEq] at h
    obtain ⟨h1, h2⟩ := h
    subst h2; subst h1
    exact ⟨h1schemas, h1events, rfl⟩
  · rw [hjsb] at h
    simp only [if_true, Prod.mk.injEq, Except.ok.injEq] at h
    obtain ⟨h1, h2⟩ := h
    subst h2; subst h1
    exact ⟨h1schemas, h1events, rfl⟩

/-- A state with a root tag `/a` carrying a stored schema `{}` (version 1). -/
def c10DB : DB :=
  ⟨[⟨0, "ns"⟩],
   [⟨1, 0, "a", none, "/a", none, some "#AABBCC", 0⟩],
   [⟨some 1, 1, "{}", 0⟩], [], [], [], 2, 5⟩

/-- C10 witness: resubmitting the stored `{}` schema through `updateTag`
changes no schema row, publishes nothing, and returns the stored version. -/
theorem c10_updateTag_same_schema_noop_witness :
    ∃ res db',
      updateTag scOk c10DB "ns" "/a" none none none none (some "{}")
        = (.ok res, db') ∧
      db'.schemas = c10DB.schemas ∧ db'.events = c10DB.events ∧
      res.schema = some ⟨some 1, 1, "{}", 0⟩ :=
  ⟨_, _, rfl,
   c10_updateTag_same_schema_noop scOk c10DB "ns" "/a" none none none none "{}"
     ⟨0, "ns"⟩ ⟨1, 0, "a", none, "/a", none, some "#AABBCC", 0⟩
     ⟨some 1, 1, "{}", 0⟩ _ _ rfl rfl rfl rfl rfl⟩

/-! ## C6: schema shape validation -/

/-- The `format` values the meta-schema's string branch permits. -/
def allowedFormats : List String :=
  ["date", "time", "date-time", "email", "uuid", "uri", "hostname",
   "ipv4", "ipv6"]

/-- The spec's family of property schemas: one of the four primitive types,
carrying only its type-appropriate primitive keywords and an enum of
matching element type. -/
inductive PropSchema where
  | strP (minL maxL : Option Nat) (pat fmt : Option String)
      (en : Option (List String))
  | numP (mn mx : Option Int) (en : Option (List Int))
  | intP (mn mx : Option Int) (en : Option (List Int))
  | boolP

/-- A JSON array of (integral) numbers. -/
def intJArr : List Int → JsonArr
  | [] => .nil
  | n :: l => .cons (.num n) (intJArr l)

/-- Prepend an optional field. -/
def optCons (k : String) (v : Option Json) (tl : JsonObj) : JsonObj :=
  match v with
  | some j => .cons k j tl
  | none => tl

/-- The JSON document of a property schema. -/
def PropSchema.toJson : PropSchema → Json
  | .strP minL maxL pat fmt en =>
    .obj (.cons "type" (.str "string")
      (optCons "minLength" (minL.map (fun n => .num n))
      (optCons "maxLength" (maxL.map (fun n => .num n))
      (optCons "pattern" (pat.map .str)
      (optCons "format" (fmt.map .str)
      (optCons "enum" (en.map (fun l => .arr (strJArr l))) .nil))))))
  | .numP mn mx en =>
    .obj (.cons "type" (.str "number")
      (optCons "minimum" (mn.map .num)
      (optCons "maximum" (mx.map .num)
      (optCons "enum" (en.map (fun l => .arr (intJArr l))) .nil))))
  | .intP mn mx en =>
    .obj (.cons "type" (.str "integer")
      (optCons "minimum" (mn.map .num)
      (optCons "maximum" (mx.map .num)
      (optCons "enum" (en.map (fun l => .arr (intJArr l))) .nil))))
  | .boolP => .obj (.cons "type" (.str "boolean") .nil)

/-- A declared `format` must be one of the permitted values. -/
def PropSchema.fmtOk : PropSchema → Prop
  | .strP _ _ _ (some f) _ => f ∈ allowedFormats
  | _ => True

/-- The `properties` object of a schema built from the family. -/
def propsToObj : List (String × PropSchema) → JsonObj
  | [] => .nil
  | (k, p) :: tl => .cons k p.toJson (propsToObj tl)

/-- A top-level object schema declaring the given primitive properties. -/
def mkPrimitiveSchema (props : List (String × PropSchema))
    (req : List String) : Json :=
  .obj (.cons "type" (.str "object")
    (.cons "properties" (.obj (propsToObj props))
    (.cons "required" (.arr (strJArr req)) .nil)))

/-- Entry membership in a JSON object's field list. -/
inductive JsonObj.Entry : String → Json → JsonObj → Prop where
  | head (k : String) (v : Json) (tl : JsonObj) : JsonObj.Entry k v (.cons k v tl)
  | tail (k : String) (v : Json) (k' : String) (v' : Json) (tl : JsonObj) :
      JsonObj.Entry k v tl → JsonObj.Entry k v (.cons k' v' tl)

end Wayfile
namespace Wayfile

theorem allItems_typed_str (fuel : Nat) (l : List String) :
    allItemsF (validateF (fuel + 1)) (.obj (.cons "type" (.str "string") .nil))
      (strJArr l) = true := by
  induction l with
  | nil => rfl
  | cons s l ih =>
    simp only [strJArr, allItemsF, ih, Bool.and_true]
    rfl

theorem allItems_typed_num (fuel : Nat) (t : String) (l : List Int)
    (ht : t = "number" ∨ t = "integer") :
    allItemsF (validateF (fuel + 1)) (.obj (.cons "type" (.str t) .nil))
      (intJArr l) = true := by
  induction l with
  | nil => rfl
  | cons n l ih =>
    simp only [intJArr, allItemsF, ih, Bool.and_true]
    rcases ht with h | h <;> subst h <;> rfl


theorem strJArr_mem_anyElem (f : String) : ∀ (l : List String), f ∈ l →
    (strJArr l).anyElem (fun e => Json.beq (.str f) e) = true
  | [], hf => absurd hf (List.not_mem_nil f)
  | s :: l, hf => by
      show (Json.beq (.str f) (.str s) ||
        (strJArr l).anyElem (fun e => Json.beq (.str f) e)) = true
      by_cases h : f = s
      · rw [show Json.beq (.str f) (.str s) = (f == s) from rfl, h,
          beq_self_eq_true]
        exact Bool.true_or _
      · have h2 : f ∈ l := by
          rcases List.mem_cons.mp hf with h' | h'
          · exact absurd h' h
          · exact h'
        rw [strJArr_mem_anyElem f l h2, Bool.or_true]

/-- `additionalProperties: true` accepts every extra field. -/
theorem extra_true (fuel : Nat) (props : JsonObj) : ∀ ikvs : JsonObj,
    validateExtraF (validateF (fuel + 1)) (.bool true) props ikvs = true
  | .nil => rfl
  | .cons k x tl => by
    show ((if (props.lookup k).isSome then true
            else validateF (fuel + 1) (.bool true) x) &&
          validateExtraF (validateF (fuel + 1)) (.bool true) props tl) = true
    rw [extra_true fuel props tl, Bool.and_true]
    rcases h : (props.lookup k).isSome with _ | _
    · rw [if_neg (by simp [h])]
      rfl
    · rw [if_pos rfl]

/-- String-string `Json.beq` is string equality. -/
theorem beq_str_str (a b : String) : Json.beq (.str a) (.str b) = (a == b) := rfl

set_option maxHeartbeats 2000000 in
/-- The string branch of the meta-schema accepts every well-formed
string-typed property schema. -/
theorem strBranch_ok (fuel : Nat) (minL maxL : Option Nat)
    (pat fmt : Option String) (en : Option (List String))
    (hf : (PropSchema.strP minL maxL pat fmt en).fmtOk) :
    validateF (fuel + 3) metaStringBranch
      (PropSchema.strP minL maxL pat fmt en).toJson = true := by
  rcases fmt with _ | f
  · rcases minL with _ | a <;> rcases maxL with _ | b <;>
      rcases pat with _ | p <;> rcases en with _ | e <;>
    simp [PropSchema.toJson, optCons, metaStringBranch, getProps, validateF,
      validateKwsF, checkKwF, validatePropsF, JsonObj.lookup, typeMatches,
      allItems_typed_str, beq_str_str, extra_true]
  · have hmem : f ∈ allowedFormats := hf
    have hany := strJArr_mem_anyElem f allowedFormats hmem
    simp only [allowedFormats] at hany
    rcases minL with _ | a <;> rcases maxL with _ | b <;>
      rcases pat with _ | p <;> rcases en with _ | e <;>
    simp [PropSchema.toJson, optCons, metaStringBranch, getProps, validateF,
      validateKwsF, checkKwF, validatePropsF, JsonObj.lookup, typeMatches,
      allItems_typed_str, beq_str_str, extra_true, hany]

set_option maxHeartbeats 1000000 in
/-- The number branch of the meta-schema accepts every number-typed
property schema. -/
theorem numBranch_ok (fuel : Nat) (mn mx : Option Int)
    (en : Option (List Int)) :
    validateF (fuel + 3) metaNumberBranch
      (PropSchema.numP mn mx en).toJson = true := by
  rcases mn with _ | a <;> rcases mx with _ | b <;> rcases en with _ | e <;>
  simp [PropSchema.toJson, optCons, metaNumberBranch, getProps, validateF,
    validateKwsF, checkKwF, validatePropsF, JsonObj.lookup, typeMatches,
    allItems_typed_num, beq_str_str, extra_true]

set_option maxHeartbeats 1000000 in
/-- The integer branch of the meta-schema accepts every integer-typed
property schema. -/
theorem intBranch_ok (fuel : Nat) (mn mx : Option Int)
    (en : Option (List Int)) :
    validateF (fuel + 3) metaIntegerBranch
      (PropSchema.intP mn mx en).toJson = true := by
  rcases mn with _ | a <;> rcases mx with _ | b <;> rcases en with _ | e <;>
  simp [PropSchema.toJson, optCons, metaIntegerBranch, getProps, validateF,
    validateKwsF, checkKwF, validatePropsF, JsonObj.lookup, typeMatches,
    allItems_typed_num, beq_str_str, extra_true]

/-- The boolean branch of the meta-schema accepts the boolean property
schema. -/
theorem boolBranch_ok (fuel : Nat) :
    validateF (fuel + 3) metaBooleanBranch PropSchema.boolP.toJson = true :=
  rfl

/-- One-step unfolding of the validator on an object schema. -/
theorem validateF_obj (fuel : Nat) (kvs : JsonObj) (inst : Json) :
    validateF (fuel + 1) (.obj kvs) inst =
      validateKwsF (validateF fuel) kvs (getProps kvs) inst := rfl

/-- An object instance that declares a `type` and satisfies one of the four
primitive branches satisfies the meta-schema per-property constraint. -/
theorem metaPerProperty_intro (fuel : Nat) (k0 : String) (v0 : Json)
    (tl : JsonObj) (hk : (JsonObj.cons k0 v0 tl).hasKey "type" = true)
    (hb : validateF (fuel + 3) metaStringBranch (.obj (.cons k0 v0 tl)) = true ∨
      validateF (fuel + 3) metaNumberBranch (.obj (.cons k0 v0 tl)) = true ∨
      validateF (fuel + 3) metaIntegerBranch (.obj (.cons k0 v0 tl)) = true ∨
      validateF (fuel + 3) metaBooleanBranch (.obj (.cons k0 v0 tl)) = true) :
    validateF (fuel + 4) metaPerProperty (.obj (.cons k0 v0 tl)) = true := by
  simp only [metaPerProperty, validateF_obj, validateKwsF, checkKwF, getProps,
    anyOfHoldsF, typeMatches, JsonArr.allElems]
  rcases hb with h | h | h | h <;> simp [hk, h]

/-- Every well-formed primitive property schema satisfies the meta-schema
per-property constraint. -/
theorem metaPerProperty_ok (fuel : Nat) (p : PropSchema) (hf : p.fmtOk) :
    validateF (fuel + 4) metaPerProperty p.toJson = true := by
  rcases p with ⟨minL, maxL, pat, fmt, en⟩ | ⟨mn, mx, en⟩ | ⟨mn, mx, en⟩ | _
  · exact metaPerProperty_intro fuel "type" (.str "string") _ rfl
      (Or.inl (strBranch_ok fuel minL maxL pat fmt en hf))
  · exact metaPerProperty_intro fuel "type" (.str "number") _ rfl
      (Or.inr (Or.inl (numBranch_ok fuel mn mx en)))
  · exact metaPerProperty_intro fuel "type" (.str "integer") _ rfl
      (Or.inr (Or.inr (Or.inl (intBranch_ok fuel mn mx en))))
  · exact metaPerProperty_intro fuel "type" (.str "boolean") _ rfl
      (Or.inr (Or.inr (Or.inr (boolBranch_ok fuel))))

/-- Every field of a primitive-properties object passes the meta-schema
`additionalProperties` check. -/
theorem extra_all_props (fuel : Nat) :
    ∀ props : List (String × PropSchema),
    (∀ kp ∈ props, PropSchema.fmtOk kp.2) →
    validateExtraF (validateF (fuel + 4)) metaPerProperty .nil
      (propsToObj props) = true
  | [], _ => rfl
  | (k, p) :: tl, h => by
    show (validateF (fuel + 4) metaPerProperty p.toJson &&
      validateExtraF (validateF (fuel + 4)) metaPerProperty .nil
        (propsToObj tl)) = true
    rw [metaPerProperty_ok fuel p (h (k, p) (List.mem_cons_self _ _)),
      extra_all_props fuel tl (fun kp hkp => h kp (List.mem_cons_of_mem _ hkp))]
    rfl

/-- The meta-schema accepts every primitive-properties schema document. -/
theorem metaSchema_accepts (fuel : Nat) (props : List (String × PropSchema))
    (req : List String) (h : ∀ kp ∈ props, PropSchema.fmtOk kp.2) :
    validateF (fuel + 8) metaSchemaJson (mkPrimitiveSchema props req) = true := by
  have e1 : validateF (fuel + 7)
      (.obj (.cons "type" (.str "object")
        (.cons "additionalProperties" metaPerProperty .nil)))
      (.obj (propsToObj props)) = true := by
    show (validateExtraF (validateF (fuel + 6)) metaPerProperty .nil
      (propsToObj props) && true) = true
    rw [show validateExtraF (validateF (fuel + 6)) metaPerProperty .nil
      (propsToObj props) = true from extra_all_props (fuel + 2) props h]
    rfl
  have e2 : allItemsF (validateF (fuel + 6))
      (.obj (.cons "type" (.str "string") .nil)) (strJArr req) = true :=
    allItems_typed_str (fuel + 5) req
  show ((validateF (fuel + 7)
      (.obj (.cons "type" (.str "object")
        (.cons "additionalProperties" metaPerProperty .nil)))
      (.obj (propsToObj props)) &&
    ((allItemsF (validateF (fuel + 6))
      (.obj (.cons "type" (.str "string") .nil)) (strJArr req) && true) &&
      true)) && true) = true
  rw [e1, e2]
  rfl

/-- `validateSchemaShape` accepts every primitive-properties schema. -/
theorem validateSchemaShape_primitive_ok (props : List (String × PropSchema))
    (req : List String) (h : ∀ kp ∈ props, PropSchema.fmtOk kp.2) :
    validateSchemaShape (mkPrimitiveSchema props req) = .ok () := by
  have hv : validateF metaFuel metaSchemaJson (mkPrimitiveSchema props req) =
      true := metaSchema_accepts 4 props req h
  simp [validateSchemaShape, hv]

/-- An extra field failing its schema fails the whole
`additionalProperties` check. -/
theorem validateExtraF_false (rec : Json → Json → Bool) (ap : Json)
    (k : String) (v : Json) (kvs : JsonObj) (he : JsonObj.Entry k v kvs)
    (hrec : rec ap v = false) : validateExtraF rec ap .nil kvs = false := by
  induction he with
  | head tl =>
    show (rec ap v && validateExtraF rec ap .nil tl) = false
    rw [hrec]
    rfl
  | tail k' v' tl hent ih =>
    show ((if (JsonObj.lookup .nil k').isSome then true else rec ap v') &&
      validateExtraF rec ap .nil tl) = false
    rw [ih]
    exact Bool.and_false _

/-- The string branch rejects a property whose `type` is not `"string"`. -/
theorem branch_rejects_str (fuel : Nat) (pkv : JsonObj) (t : String)
    (ht : pkv.lookup "type" = some (.str t))
    (h1 : (t == "string") = false) :
    validateF (fuel + 3) metaStringBranch (.obj pkv) = false := by
  simp only [metaStringBranch, validateF_obj, validateKwsF, checkKwF,
    getProps, validatePropsF, ht, beq_str_str, h1, Bool.false_and,
    Bool.and_false]

/-- The number branch rejects a property whose `type` is not `"number"`. -/
theorem branch_rejects_num (fuel : Nat) (pkv : JsonObj) (t : String)
    (ht : pkv.lookup "type" = some (.str t))
    (h2 : (t == "number") = false) :
    validateF (fuel + 3) metaNumberBranch (.obj pkv) = false := by
  simp only [metaNumberBranch, validateF_obj, validateKwsF, checkKwF,
    getProps, validatePropsF, ht, beq_str_str, h2, Bool.false_and,
    Bool.and_false]

/-- The integer branch rejects a property whose `type` is not `"integer"`. -/
theorem branch_rejects_int (fuel : Nat) (pkv : JsonObj) (t : String)
    (ht : pkv.lookup "type" = some (.str t))
    (h3 : (t == "integer") = false) :
    validateF (fuel + 3) metaIntegerBranch (.obj pkv) = false := by
  simp only [metaIntegerBranch, validateF_obj, validateKwsF, checkKwF,
    getProps, validatePropsF, ht, beq_str_str, h3, Bool.false_and,
    Bool.and_false]

/-- The boolean branch rejects a property whose `type` is not `"boolean"`. -/
theorem branch_rejects_bool (fuel : Nat) (pkv : JsonObj) (t : String)
    (ht : pkv.lookup "type" = some (.str t))
    (h4 : (t == "boolean") = false) :
    validateF (fuel + 3) metaBooleanBranch (.obj pkv) = false := by
  simp only [metaBooleanBranch, validateF_obj, validateKwsF, checkKwF,
    getProps, validatePropsF, ht, beq_str_str, h4, Bool.false_and,
    Bool.and_false]

/-- A property whose declared `type` is none of the four primitives fails
the meta-schema per-property constraint. -/
theorem perProp_rejects (fuel : Nat) (pkv : JsonObj) (t : String)
    (ht : pkv.lookup "type" = some (.str t))
    (h1 : (t == "string") = false) (h2 : (t == "number") = false)
    (h3 : (t == "integer") = false) (h4 : (t == "boolean") = false) :
    validateF (fuel + 4) metaPerProperty (.obj pkv) = false := by
  have hS := branch_rejects_str fuel pkv t ht h1
  have hN := branch_rejects_num fuel pkv t ht h2
  have hI := branch_rejects_int fuel pkv t ht h3
  have hB := branch_rejects_bool fuel pkv t ht h4
  simp only [metaPerProperty, validateF_obj, validateKwsF, checkKwF,
    getProps, anyOfHoldsF, typeMatches, JsonArr.allElems, hS, hN, hI, hB,
    Bool.false_or, Bool.or_false, Bool.false_and, Bool.and_false,
    Bool.and_true, Bool.true_and]

/-- The meta-schema rejects a schema document one of whose declared
properties has a non-primitive `type`. -/
theorem metaSchema_rejects (fuel : Nat) (skvs pkvs pkv : JsonObj)
    (x t : String)
    (hlk : skvs.lookup "properties" = some (.obj pkvs))
    (he : JsonObj.Entry x (.obj pkv) pkvs)
    (ht : pkv.lookup "type" = some (.str t))
    (h1 : (t == "string") = false) (h2 : (t == "number") = false)
    (h3 : (t == "integer") = false) (h4 : (t == "boolean") = false) :
    validateF (fuel + 8) metaSchemaJson (.obj skvs) = false := by
  have hP : validateF (fuel + 6) metaPerProperty (.obj pkv) = false :=
    perProp_rejects (fuel + 2) pkv t ht h1 h2 h3 h4
  have hE : validateExtraF (validateF (fuel + 6)) metaPerProperty .nil
      pkvs = false :=
    validateExtraF_false (validateF (fuel + 6)) metaPerProperty x
      (.obj pkv) pkvs he hP
  have hIn : validateF (fuel + 7)
      (.obj (.cons "type" (.str "object")
        (.cons "additionalProperties" metaPerProperty .nil)))
      (.obj pkvs) = false := by
    show (validateExtraF (validateF (fuel + 6)) metaPerProperty .nil
      pkvs && true) = false
    rw [hE]
    rfl
  simp only [metaSchemaJson, validateF_obj, validateKwsF, checkKwF,
    getProps, validatePropsF, typeMatches, JsonArr.allElems, hlk, hIn,
    Bool.false_and, Bool.and_false]

/-- `validateSchemaShape` rejects, with `ErrNestedTypesNotAllowed`, a
schema declaring a property of non-primitive type. -/
theorem validateSchemaShape_nested_rejected (skvs pkvs pkv : JsonObj)
    (x t : String)
    (hlk : skvs.lookup "properties" = some (.obj pkvs))
    (he : JsonObj.Entry x (.obj pkv) pkvs)
    (ht : pkv.lookup "type" = some (.str t))
    (hta : t = "object" ∨ t = "array") :
    validateSchemaShape (.obj skvs) = .error .nestedTypesNotAllowed := by
  have hv : validateF metaFuel metaSchemaJson (.obj skvs) = false := by
    rcases hta with h | h <;> subst h <;>
      exact metaSchema_rejects 4 skvs pkvs pkv x _ hlk he ht rfl rfl rfl rfl
  simp [validateSchemaShape, hv]

/-- C6: a submitted schema document whose top-level `type` is `"object"`
and whose declared properties are all primitive-typed (string, number,
integer or boolean, carrying only type-appropriate primitive keywords and
matching-element enums) passes `validateSchemaShape`; a schema one of whose
declared properties has type `"object"` or `"array"` fails it with
`ErrNestedTypesNotAllowed`. -/
theorem c6_schema_shape_primitives_only
    (props : List (String × PropSchema)) (req : List String)
    (hfmt : ∀ kp ∈ props, PropSchema.fmtOk kp.2)
    (skvs pkvs pkv : JsonObj) (x t : String)
    (hlk : skvs.lookup "properties" = some (.obj pkvs))
    (he : JsonObj.Entry x (.obj pkv) pkvs)
    (ht : pkv.lookup "type" = some (.str t))
    (hta : t = "object" ∨ t = "array") :
    validateSchemaShape (mkPrimitiveSchema props req) = .ok () ∧
    validateSchemaShape (.obj skvs) = .error .nestedTypesNotAllowed :=
  ⟨validateSchemaShape_primitive_ok props req hfmt,
   validateSchemaShape_nested_rejected skvs pkvs pkv x t hlk he ht hta⟩

/-- Concrete instance of C6: a two-property primitive schema is accepted,
and a schema with an object-typed property is rejected. -/
theorem c6_schema_shape_primitives_only_witness :
    validateSchemaShape (mkPrimitiveSchema
      [("age", PropSchema.intP (some 0) (some 150) none),
       ("name", PropSchema.strP (some 1) none none (some "email") none)]
      ["name"]) = .ok () ∧
    validateSchemaShape (.obj (.cons "type" (.str "object")
      (.cons "properties" (.obj (.cons "x"
        (.obj (.cons "type" (.str "object") .nil)) .nil)) .nil))) =
      .error .nestedTypesNotAllowed :=
  c6_schema_shape_primitives_only
    [("age", PropSchema.intP (some 0) (some 150) none),
     ("name", PropSchema.strP (some 1) none none (some "email") none)]
    ["name"]
    (by intro kp hkp
        rcases hkp with _ | ⟨_, h⟩
        · exact trivial
        · rcases h with _ | ⟨_, h⟩
          · show "email" ∈ allowedFormats
            decide
          · exact absurd h (List.not_mem_nil _))
    (.cons "type" (.str "object")
      (.cons "properties" (.obj (.cons "x"
        (.obj (.cons "type" (.str "object") .nil)) .nil)) .nil))
    (.cons "x" (.obj (.cons "type" (.str "object") .nil)) .nil)
    (.cons "type" (.str "object") .nil)
    "x" "object" rfl (.head _ _ _) rfl (Or.inl rfl)

end Wayfile
